import Mathlib

/-!
# Runtime pool of the script host

Shallow embedding of `internal/goja/goja_runtime/goja_runtime_manager.go`
(`Pool`, `Manager`) and the properties of the pool that the specification
states about it.

Modelling conventions

* A `*goja.Runtime` is an address (`RuntimeId`), `none` being the nil pointer.
* The buffered channel `p.runtimes` is its FIFO buffer together with its
  capacity.  `Pool` is the pool while its channel is open; `PoolState` adds the
  closed flag that `Cleanup` sets.
* `Pool.Get` and `Pool.Put` compute `active` (`int32`) and the four counters
  (`int64`) in the integers: what they say of one call is what the machine
  arithmetic does as long as `active` stays within the `int32` range.
  `Pool.Get32` and `Pool.Put32` compute `active` with the wrapping arithmetic
  of `atomic.AddInt32`; the bound on `active` over call sequences of any
  length is stated on them.
* `initFn` is an oracle: its `k`-th invocation returns `initFn k`.  The number
  of invocations made so far and the pending-interrupt flag of every runtime
  live in `World`, the part of the heap outside the pool.
* A Go panic is the result `none`.
-/

namespace GojaRuntime

/-- Address of a `goja.Runtime` object. -/
abbrev RuntimeId := Nat

/-- A `*goja.Runtime`; `none` is the nil pointer. -/
abbrev Runtime := Option RuntimeId

/-- A Go `error`; `none` is the nil error. -/
abbrev GoError := Option String

/-- The function `func() (*goja.Runtime, error)`; its `k`-th invocation
(counting from zero) returns `initFn k`. -/
abbrev InitFn := Nat → Runtime × GoError

/-- The struct `metrics`. -/
structure Metrics where
  created : Int
  reused : Int
  errors : Int
  timeouts : Int
deriving DecidableEq, Repr

/-- An open buffered channel of non-nil runtimes: the buffered elements, oldest
first, and the capacity given to `make`. -/
structure Chan where
  buf : List RuntimeId
  cap : Nat
deriving DecidableEq, Repr

/-- The struct `Pool` (the logger is left out).  The `int32` fields `active` and
`maxSize` are held as integers. -/
structure Pool where
  runtimes : Chan
  initFn : InitFn
  active : Int
  maxSize : Int
  metrics : Metrics

/-- The heap outside the pool: the pending-interrupt flag of every runtime and
the number of `initFn` invocations made so far. -/
structure World where
  interrupted : RuntimeId → Bool
  initCalls : Nat

/-- A `context.Context` as `Get` sees it: `never` is a context whose `Done`
channel never closes; `done err` is a context that is done, or becomes done
while the call waits, with `ctx.Err() = err`. -/
inductive Context where
  | never
  | done (err : String)
deriving DecidableEq, Repr

/-- What a call of `Get` does: it returns its pair of results, or it waits
forever in the inner `select`. -/
inductive GetResult where
  | returned (runtime : Runtime) (err : GoError)
  | blocked
deriving DecidableEq, Repr

/-- The constructor `NewPool`: `make(chan *goja.Runtime, maxSize)` panics when
`maxSize` is negative. -/
def NewPool (maxSize : Int) (initFn : InitFn) : Option Pool :=
  if maxSize < 0 then none
  else some
    { runtimes := { buf := [], cap := maxSize.toNat }
      initFn := initFn
      active := 0
      maxSize := maxSize
      metrics := { created := 0, reused := 0, errors := 0, timeouts := 0 } }

/-- The call `runtime.ClearInterrupt()`: lowers the pending-interrupt flag. -/
def ClearInterrupt (w : World) (r : RuntimeId) : World :=
  { w with interrupted := fun x => if x = r then false else w.interrupted x }

/-- The call `runtime.Interrupt(v)`: raises the pending-interrupt flag. -/
def Interrupt (w : World) (r : RuntimeId) : World :=
  { w with interrupted := fun x => if x = r then true else w.interrupted x }

/-- The method `Pool.Get`, run by a single caller with no other goroutine active.

The outer `select` receives the oldest idle runtime if there is one.  Otherwise
the loop loads `active`; at or above `maxSize` the inner `select` waits on the
(still empty) channel and on `ctx.Done()`; below it the compare-and-swap
succeeds at the first attempt and `initFn` is called.  The field `active` is
computed in the integers; `Pool.Get32` is the same method in `int32`
arithmetic. -/
def Pool.Get (p : Pool) (w : World) (ctx : Context) : GetResult × Pool × World :=
  match p.runtimes.buf with
  | r :: rest =>
    (GetResult.returned (some r) none,
      { p with
        runtimes := { p.runtimes with buf := rest }
        metrics := { p.metrics with reused := p.metrics.reused + 1 }
        active := p.active + 1 },
      w)
  | [] =>
    let cur := p.active
    if cur ≥ p.maxSize then
      match ctx with
      | Context.done e =>
        (GetResult.returned none (some e),
          { p with metrics := { p.metrics with timeouts := p.metrics.timeouts + 1 } },
          w)
      | Context.never => (GetResult.blocked, p, w)
    else
      let p1 := { p with active := cur + 1 }
      let res := p1.initFn w.initCalls
      let w1 := { w with initCalls := w.initCalls + 1 }
      match res.2 with
      | some e =>
        (GetResult.returned none (some e),
          { p1 with
            metrics := { p1.metrics with errors := p1.metrics.errors + 1 }
            active := p1.active + (-1) },
          w1)
      | none =>
        (GetResult.returned res.1 none,
          { p1 with metrics := { p1.metrics with created := p1.metrics.created + 1 } },
          w1)

/-- The method `Pool.Put`, run by a single caller with no other goroutine
active: the non-blocking send succeeds exactly when the buffer has room.  The
field `active` is computed in the integers; `Pool.Put32` is the same method in
`int32` arithmetic. -/
def Pool.Put (p : Pool) (w : World) (runtime : Runtime) : Pool × World :=
  match runtime with
  | none => (p, w)
  | some r =>
    let w1 := ClearInterrupt w r
    let p1 := { p with active := p.active + (-1) }
    if p1.runtimes.buf.length < p1.runtimes.cap then
      ({ p1 with runtimes := { p1.runtimes with buf := p1.runtimes.buf ++ [r] } }, w1)
    else
      (p1, w1)

/-- The method `Pool.Stats`: the four counters under their keys. -/
def Pool.Stats (p : Pool) : List (String × Int) :=
  [("created", p.metrics.created), ("reused", p.metrics.reused),
   ("errors", p.metrics.errors), ("timeouts", p.metrics.timeouts)]

/-- One call made on the pool. -/
inductive Call where
  | get (ctx : Context)
  | put (runtime : Runtime)
deriving DecidableEq, Repr

/-- The state after one call.  A `Get` that waits forever changes nothing. -/
def runCall (s : Pool × World) (c : Call) : Pool × World :=
  match c with
  | Call.get ctx => (s.1.Get s.2 ctx).2
  | Call.put r => s.1.Put s.2 r

/-- The state after a sequence of calls executed one after another. -/
def runCalls (s : Pool × World) (cs : List Call) : Pool × World :=
  cs.foldl runCall s

/-- The capacity accounting of a pool: the channel was made with capacity
`maxSize`, holds no more than that, and idle plus checked-out runtimes fit in
it. -/
structure Pool.Accounted (p : Pool) : Prop where
  cap_eq : (p.runtimes.cap : Int) = p.maxSize
  len_le : p.runtimes.buf.length ≤ p.runtimes.cap
  sum_le : (p.runtimes.buf.length : Int) + p.active ≤ p.maxSize

/-- The release of the specification, in its words: releasing nil changes
nothing; otherwise the checked-out count drops by one and the instance joins
the end of the idle queue if that holds fewer than `maxSize` instances, and is
discarded if not. -/
def PutRef (p : Pool) (runtime : Runtime) : Pool :=
  match runtime with
  | none => p
  | some r =>
    { p with
      active := p.active - 1
      runtimes :=
        if (p.runtimes.buf.length : Int) < p.maxSize then
          { p.runtimes with buf := p.runtimes.buf ++ [r] }
        else p.runtimes }

/-! ## A client using the pool -/

/-- What the client of a pool does: it acquires a runtime, releases one, or
the runtime it is running a script on is interrupted. -/
inductive Use where
  | get (ctx : Context)
  | put (runtime : Runtime)
  | interrupt (r : RuntimeId)
deriving DecidableEq, Repr

/-- The pool, the heap, and the runtimes checked out: those `Get` has returned
and that have not been passed to `Put` since. -/
structure Client where
  pool : Pool
  world : World
  held : List RuntimeId

/-- The runtimes checked out after a `Get` with the given result. -/
def heldAfterGet (held : List RuntimeId) : GetResult → List RuntimeId
  | GetResult.returned (some r) none => r :: held
  | _ => held

/-- One step of the client.  Only a runtime that is checked out, hence running
a script, can be interrupted. -/
def Client.use (s : Client) (u : Use) : Client :=
  match u with
  | Use.get ctx =>
    let res := s.pool.Get s.world ctx
    { pool := res.2.1, world := res.2.2, held := heldAfterGet s.held res.1 }
  | Use.put runtime =>
    let res := s.pool.Put s.world runtime
    { pool := res.1
      world := res.2
      held := match runtime with
        | some r => s.held.erase r
        | none => s.held }
  | Use.interrupt r =>
    if r ∈ s.held then { s with world := Interrupt s.world r } else s

/-- The client state after a sequence of steps. -/
def Client.uses (s : Client) (us : List Use) : Client :=
  us.foldl Client.use s

/-- Every release in the sequence hands back a runtime that is checked out at
that moment: no runtime is released twice, none that was never acquired. -/
def Client.releasesHeld (s : Client) : List Use → Prop
  | [] => True
  | Use.put (some r) :: us => r ∈ s.held ∧ Client.releasesHeld (s.use (Use.put (some r))) us
  | u :: us => Client.releasesHeld (s.use u) us

/-- The initializer builds a new runtime at every call: no address is returned
by two invocations. -/
def FreshInit (initFn : InitFn) : Prop :=
  ∀ i j r, (initFn i).1 = some r → (initFn j).1 = some r → i = j

/-! ## Concurrent callers

`Get` and `Put` cut at their atomic operations: channel receive, atomic load,
compare-and-swap, atomic add, channel send. -/

/-- Index of a goroutine. -/
abbrev ThreadId := Nat

/-- Where a goroutine stands: outside a call, or in front of the named atomic
operation of `Get` or `Put`. -/
inductive Loc where
  | out
  | getSelect (ctx : Context)
  | getReused (r : RuntimeId)
  | getActivate (r : RuntimeId)
  | getLoad (ctx : Context)
  | getWait (ctx : Context)
  | getTimeout (err : String)
  | getCAS (ctx : Context) (cur : Int)
  | getInit
  | getErrors (err : String)
  | getRelease (err : String)
  | getCreated (runtime : Runtime)
  | putClear (r : RuntimeId)
  | putDec (r : RuntimeId)
  | putSend (r : RuntimeId)
deriving DecidableEq, Repr

/-- A goroutine: its position and the runtimes it obtained from `Get` and has
not released. -/
structure Thread where
  loc : Loc
  held : List RuntimeId
deriving DecidableEq, Repr

/-- The shared pool and heap, and every goroutine. -/
structure Conc where
  pool : Pool
  world : World
  threads : ThreadId → Thread

/-- What the scheduler lets a goroutine do: enter `Get`, enter `Put`, execute
its next atomic operation, take the receive branch or the `ctx.Done()` branch
of the inner `select`, or hand the runtime it is sending to a goroutine parked
in the inner `select`. -/
inductive Act where
  | callGet (ctx : Context)
  | callPut (runtime : Runtime)
  | next
  | recv
  | expire
  | handoff (target : ThreadId)
deriving DecidableEq, Repr

/-- Replace the state of goroutine `t`. -/
def Conc.setThread (s : Conc) (t : ThreadId) (th : Thread) : Conc :=
  { s with threads := fun x => if x = t then th else s.threads x }

/-- Move goroutine `t` to `loc`. -/
def Conc.goto (s : Conc) (t : ThreadId) (loc : Loc) : Conc :=
  s.setThread t { s.threads t with loc := loc }

/-- Goroutine `t` receives the oldest buffered runtime, if there is one. -/
def Conc.receive (s : Conc) (t : ThreadId) : Option Conc :=
  match s.pool.runtimes.buf with
  | r :: rest =>
    some (({ s with pool := { s.pool with runtimes := { s.pool.runtimes with buf := rest } } } : Conc).goto
      t (Loc.getReused r))
  | [] => none

/-- One atomic operation of goroutine `t`; `none` when the scheduler's choice
is not enabled.  A goroutine enters `Put` only with a runtime it holds. -/
def Conc.step (s : Conc) (t : ThreadId) (a : Act) : Option Conc :=
  let th := s.threads t
  match th.loc, a with
  | Loc.out, Act.callGet ctx => some (s.goto t (Loc.getSelect ctx))
  | Loc.out, Act.callPut none => some s
  | Loc.out, Act.callPut (some r) =>
    if r ∈ th.held then some (s.setThread t { loc := Loc.putClear r, held := th.held.erase r })
    else none
  | Loc.getSelect ctx, Act.next =>
    match s.receive t with
    | some s1 => some s1
    | none => some (s.goto t (Loc.getLoad ctx))
  | Loc.getReused r, Act.next =>
    some (({ s with pool := { s.pool with
      metrics := { s.pool.metrics with reused := s.pool.metrics.reused + 1 } } } : Conc).goto
      t (Loc.getActivate r))
  | Loc.getActivate r, Act.next =>
    some (({ s with pool := { s.pool with active := s.pool.active + 1 } } : Conc).setThread
      t { loc := Loc.out, held := r :: th.held })
  | Loc.getLoad ctx, Act.next =>
    if s.pool.active ≥ s.pool.maxSize then some (s.goto t (Loc.getWait ctx))
    else some (s.goto t (Loc.getCAS ctx s.pool.active))
  | Loc.getWait _, Act.recv => s.receive t
  | Loc.getWait (Context.done e), Act.expire => some (s.goto t (Loc.getTimeout e))
  | Loc.getTimeout _, Act.next =>
    some (({ s with pool := { s.pool with
      metrics := { s.pool.metrics with timeouts := s.pool.metrics.timeouts + 1 } } } : Conc).goto
      t Loc.out)
  | Loc.getCAS ctx cur, Act.next =>
    if s.pool.active = cur then
      some (({ s with pool := { s.pool with active := cur + 1 } } : Conc).goto t Loc.getInit)
    else some (s.goto t (Loc.getLoad ctx))
  | Loc.getInit, Act.next =>
    let res := s.pool.initFn s.world.initCalls
    let s1 : Conc := { s with world := { s.world with initCalls := s.world.initCalls + 1 } }
    match res.2 with
    | some e => some (s1.goto t (Loc.getErrors e))
    | none => some (s1.goto t (Loc.getCreated res.1))
  | Loc.getErrors e, Act.next =>
    some (({ s with pool := { s.pool with
      metrics := { s.pool.metrics with errors := s.pool.metrics.errors + 1 } } } : Conc).goto
      t (Loc.getRelease e))
  | Loc.getRelease _, Act.next =>
    some (({ s with pool := { s.pool with active := s.pool.active + (-1) } } : Conc).goto t Loc.out)
  | Loc.getCreated runtime, Act.next =>
    some (({ s with pool := { s.pool with
      metrics := { s.pool.metrics with created := s.pool.metrics.created + 1 } } } : Conc).setThread
      t { loc := Loc.out
          held := match runtime with
            | some r => r :: th.held
            | none => th.held })
  | Loc.putClear r, Act.next =>
    some (({ s with world := ClearInterrupt s.world r } : Conc).goto t (Loc.putDec r))
  | Loc.putDec r, Act.next =>
    some (({ s with pool := { s.pool with active := s.pool.active + (-1) } } : Conc).goto
      t (Loc.putSend r))
  | Loc.putSend r, Act.next =>
    if s.pool.runtimes.buf.length < s.pool.runtimes.cap then
      some (({ s with pool := { s.pool with
        runtimes := { s.pool.runtimes with buf := s.pool.runtimes.buf ++ [r] } } } : Conc).goto
        t Loc.out)
    else some (s.goto t Loc.out)
  | Loc.putSend r, Act.handoff u =>
    match (s.threads u).loc, s.pool.runtimes.buf with
    | Loc.getWait _, [] =>
      if u = t then none else some ((s.goto u (Loc.getReused r)).goto t Loc.out)
    | _, _ => none
  | _, _ => none

/-- Run a schedule: a list of goroutines with the choice made for each. -/
def Conc.run (s : Conc) : List (ThreadId × Act) → Option Conc
  | [] => some s
  | (t, a) :: rest =>
    match s.step t a with
    | some s1 => Conc.run s1 rest
    | none => none

/-- The start: a new pool and every goroutine outside a call, holding
nothing. -/
def Conc.start (p : Pool) (w : World) : Conc :=
  { pool := p, world := w, threads := fun _ => { loc := Loc.out, held := [] } }

/-- The states the interleaved execution of `Get` and `Put` can reach from a
new pool of capacity `N`. -/
def Conc.Reachable (N : Int) (initFn : InitFn) (s : Conc) : Prop :=
  ∃ p w sched, NewPool N initFn = some p ∧ (Conc.start p w).run sched = some s

/-! ## The registry of pools -/

/-- The struct `Manager`.  A `*Pool` is an index into `heap`, the pools
allocated so far; `pools` is the Go map from extension identity to pool. -/
structure Manager where
  pools : String → Option Nat
  heap : List Pool
  maxPerExt : Int

/-- The constructor `NewManager` (the logger is left out). -/
def NewManager (maxPerExt : Int) : Manager :=
  { pools := fun _ => none, heap := [], maxPerExt := maxPerExt }

/-- The method `Manager.GetOrCreatePool`, run by a single caller: the lookup under the
read lock, the second lookup under the write lock, then `NewPool` and the
insertion.  The result is the pool pointer and the error, with the manager
afterwards; `none` is the panic of `NewPool`. -/
def Manager.GetOrCreatePool (m : Manager) (extID : String) (initFn : InitFn) :
    Option ((Nat × GoError) × Manager) :=
  match m.pools extID with
  | some pool => some ((pool, none), m)
  | none =>
    match m.pools extID with
    | some pool => some ((pool, none), m)
    | none =>
      match NewPool m.maxPerExt initFn with
      | none => none
      | some pool =>
        some ((m.heap.length, none),
          { m with
            heap := m.heap ++ [pool]
            pools := fun x => if x = extID then some m.heap.length else m.pools x })

/-- The pool behind a pool pointer. -/
def Manager.deref (m : Manager) (pool : Nat) : Option Pool :=
  m.heap[pool]?

/-! ## Derived notions and concrete inputs -/

/-- The pool `NewPool` returns for a capacity that is not negative. -/
def Pool.fresh (capacity : Nat) (initFn : InitFn) : Pool :=
  { runtimes := { buf := [], cap := capacity }
    initFn := initFn
    active := 0
    maxSize := capacity
    metrics := { created := 0, reused := 0, errors := 0, timeouts := 0 } }

/-- An initializer that succeeds at every call, building runtime `k` at its
`k`-th call. -/
def countingInit : InitFn := fun k => (some k, none)

/-- An initializer that fails at every call. -/
def failingInit : InitFn := fun _ => (none, some "init failed")

/-- A heap with no interrupt pending and no initializer call made. -/
def quietWorld : World := { interrupted := fun _ => false, initCalls := 0 }

/-- The runtime a call of `Get` hands to its caller; nil when it waits
forever. -/
def GetResult.runtime : GetResult → Runtime
  | GetResult.returned runtime _ => runtime
  | GetResult.blocked => none

/-- The sequence `r1 := Get; Put(r1); r2 := Get`: the results of the two `Get`
calls and the pool and heap at the end. -/
def getPutGet (p : Pool) (w : World) (c1 c2 : Context) : GetResult × GetResult × Pool × World :=
  let g1 := p.Get w c1
  let s1 := g1.2.1.Put g1.2.2 g1.1.runtime
  let g2 := s1.1.Get s1.2 c2
  (g1.1, g2.1, g2.2)

/-- A client that holds nothing yet. -/
def Client.start (p : Pool) (w : World) : Client :=
  { pool := p, world := w, held := [] }

/-- What keeps idle runtimes free of pending interrupts: every idle runtime has
its flag cleared, no runtime is idle twice, checked out twice, or idle and
checked out at once, and every runtime idle or checked out was built by an
earlier call of the initializer. -/
structure Client.Sound (s : Client) : Prop where
  idle_clear : ∀ r ∈ s.pool.runtimes.buf, s.world.interrupted r = false
  nodup : (s.pool.runtimes.buf ++ s.held).Nodup
  allocated : ∀ r ∈ s.pool.runtimes.buf ++ s.held,
    ∃ i, i < s.world.initCalls ∧ (s.pool.initFn i).1 = some r

/-- A runtime is acquired, released, released a second time and acquired again;
the script then running on it is interrupted. -/
def doubleReleaseUses : List Use :=
  [Use.get Context.never, Use.put (some 0), Use.put (some 0), Use.get Context.never,
   Use.interrupt 0]

/-- A runtime is acquired, the script running on it is interrupted, and the
runtime is released. -/
def interruptedThenReleased : List Use :=
  [Use.get Context.never, Use.interrupt 0, Use.put (some 0)]

/-- Two goroutines on a pool of capacity 1.  Goroutine 0 acquires (building
runtime 0) and enters `Put`, stopping between the decrement of `active` and the
send.  Goroutine 1 acquires: the channel is empty and `active` is 0, so it
reserves the slot and builds runtime 1.  Goroutine 0 completes its send and
acquires again, served from the idle queue. -/
def racingSchedule : List (ThreadId × Act) :=
  [(0, Act.callGet Context.never), (0, Act.next), (0, Act.next), (0, Act.next), (0, Act.next),
   (0, Act.next),
   (0, Act.callPut (some 0)), (0, Act.next), (0, Act.next),
   (1, Act.callGet Context.never), (1, Act.next), (1, Act.next), (1, Act.next), (1, Act.next),
   (1, Act.next),
   (0, Act.next),
   (0, Act.callGet Context.never), (0, Act.next), (0, Act.next), (0, Act.next)]

/-- What is observed of a state of the concurrent execution: `active`,
`maxSize`, the idle queue, and what goroutines 0 and 1 hold and where they
stand. -/
def Conc.observe (s : Conc) : Int × Int × List RuntimeId × Thread × Thread :=
  (s.pool.active, s.pool.maxSize, s.pool.runtimes.buf, s.threads 0, s.threads 1)

/-- The choices of a goroutine that runs a whole call of `Get` with no other
goroutine active.  A call that waits forever ends parked in the inner
`select`. -/
def loneGet (p : Pool) (w : World) (ctx : Context) : List Act :=
  match p.runtimes.buf with
  | _ :: _ => [Act.callGet ctx, Act.next, Act.next, Act.next]
  | [] =>
    if p.active ≥ p.maxSize then
      match ctx with
      | Context.done _ => [Act.callGet ctx, Act.next, Act.next, Act.expire, Act.next]
      | Context.never => [Act.callGet ctx, Act.next, Act.next]
    else
      match (p.initFn w.initCalls).2 with
      | some _ => [Act.callGet ctx, Act.next, Act.next, Act.next, Act.next, Act.next, Act.next]
      | none => [Act.callGet ctx, Act.next, Act.next, Act.next, Act.next, Act.next]

/-- The choices of a goroutine that runs a whole call of `Put` on a runtime it
holds. -/
def lonePut (r : RuntimeId) : List Act :=
  [Act.callPut (some r), Act.next, Act.next, Act.next]

/-! ## The machine arithmetic of `active`

The field `active` is an `int32` and `atomic.AddInt32` wraps.  `Pool.Get` and
`Pool.Put` above compute `active` in the integers; `Pool.Get32` and
`Pool.Put32` are the same methods with the wrapping arithmetic.  The two agree
as long as `active` stays within the `int32` range. -/

/-- The `int32` an integer wraps to: what `atomic.AddInt32` and the `int32`
addition `cur + 1` produce. -/
def wrap32 (x : Int) : Int :=
  (x + 2147483648) % 4294967296 - 2147483648

/-- The method `Pool.Get`, run by a single caller, with `active` computed in
`int32`: the additions of `atomic.AddInt32` and the `cur + 1` of the
compare-and-swap wrap. -/
def Pool.Get32 (p : Pool) (w : World) (ctx : Context) : GetResult × Pool × World :=
  match p.runtimes.buf with
  | r :: rest =>
    (GetResult.returned (some r) none,
      { p with
        runtimes := { p.runtimes with buf := rest }
        metrics := { p.metrics with reused := p.metrics.reused + 1 }
        active := wrap32 (p.active + 1) },
      w)
  | [] =>
    let cur := p.active
    if cur ≥ p.maxSize then
      match ctx with
      | Context.done e =>
        (GetResult.returned none (some e),
          { p with metrics := { p.metrics with timeouts := p.metrics.timeouts + 1 } },
          w)
      | Context.never => (GetResult.blocked, p, w)
    else
      let p1 := { p with active := wrap32 (cur + 1) }
      let res := p1.initFn w.initCalls
      let w1 := { w with initCalls := w.initCalls + 1 }
      match res.2 with
      | some e =>
        (GetResult.returned none (some e),
          { p1 with
            metrics := { p1.metrics with errors := p1.metrics.errors + 1 }
            active := wrap32 (p1.active + (-1)) },
          w1)
      | none =>
        (GetResult.returned res.1 none,
          { p1 with metrics := { p1.metrics with created := p1.metrics.created + 1 } },
          w1)

/-- The method `Pool.Put`, run by a single caller, with `active` computed in
`int32`: `atomic.AddInt32(&p.active, -1)` wraps. -/
def Pool.Put32 (p : Pool) (w : World) (runtime : Runtime) : Pool × World :=
  match runtime with
  | none => (p, w)
  | some r =>
    let w1 := ClearInterrupt w r
    let p1 := { p with active := wrap32 (p.active + (-1)) }
    if p1.runtimes.buf.length < p1.runtimes.cap then
      ({ p1 with runtimes := { p1.runtimes with buf := p1.runtimes.buf ++ [r] } }, w1)
    else
      (p1, w1)

/-- The state after one call, in `int32` arithmetic. -/
def runCall32 (s : Pool × World) (c : Call) : Pool × World :=
  match c with
  | Call.get ctx => (s.1.Get32 s.2 ctx).2
  | Call.put r => s.1.Put32 s.2 r

/-- The state after a sequence of calls executed one after another, in `int32`
arithmetic. -/
def runCalls32 (s : Pool × World) (cs : List Call) : Pool × World :=
  cs.foldl runCall32 s

/-- The number of `Put` calls with a runtime that is not nil. -/
def putCount : List Call → Nat
  | [] => 0
  | Call.put (some _) :: cs => putCount cs + 1
  | _ :: cs => putCount cs

/-! ## Teardown -/

/-- A pool together with the state of its channel: open, or closed by
`Cleanup`. -/
structure PoolState where
  pool : Pool
  closed : Bool

/-- A new pool: its channel is open. -/
def PoolState.start (p : Pool) : PoolState :=
  { pool := p, closed := false }

/-- The method `Pool.Get` on a pool that may have been torn down.  A receive
from a closed channel never blocks: once the buffer is empty it yields the
zero value, a nil runtime, so the first case of the outer `select` is taken. -/
def PoolState.Get (s : PoolState) (w : World) (ctx : Context) :
    GetResult × PoolState × World :=
  if s.closed ∧ s.pool.runtimes.buf = [] then
    (GetResult.returned none none,
      { s with pool :=
        { s.pool with
          metrics := { s.pool.metrics with reused := s.pool.metrics.reused + 1 }
          active := s.pool.active + 1 } },
      w)
  else
    ((s.pool.Get w ctx).1, { s with pool := (s.pool.Get w ctx).2.1 }, (s.pool.Get w ctx).2.2)

/-- The method `Pool.Put` on a pool that may have been torn down: a send on a
closed channel panics. -/
def PoolState.Put (s : PoolState) (w : World) (runtime : Runtime) :
    Option (PoolState × World) :=
  match runtime with
  | none => some (s, w)
  | some r =>
    if s.closed then none
    else some ({ s with pool := (s.pool.Put w (some r)).1 }, (s.pool.Put w (some r)).2)

/-- The method `Pool.Cleanup`: closes the channel, then receives every buffered
runtime and clears its interrupt.  Closing a closed channel panics. -/
def PoolState.Cleanup (s : PoolState) (w : World) : Option (PoolState × World) :=
  if s.closed then none
  else
    some
      ({ pool := { s.pool with runtimes := { s.pool.runtimes with buf := [] } }, closed := true },
        s.pool.runtimes.buf.foldl ClearInterrupt w)

/-- One call made on a pool, teardown included. -/
inductive Op where
  | get (ctx : Context)
  | put (runtime : Runtime)
  | cleanup
deriving DecidableEq, Repr

/-- The state after a sequence of calls executed one after another; `none` when
one of them panics. -/
def PoolState.run (s : PoolState) (w : World) : List Op → Option (PoolState × World)
  | [] => some (s, w)
  | Op.get ctx :: ops => PoolState.run (s.Get w ctx).2.1 (s.Get w ctx).2.2 ops
  | Op.put runtime :: ops =>
    match s.Put w runtime with
    | some s1 => PoolState.run s1.1 s1.2 ops
    | none => none
  | Op.cleanup :: ops =>
    match s.Cleanup w with
    | some s1 => PoolState.run s1.1 s1.2 ops
    | none => none

/-- The initializer never returns a nil runtime together with a nil error. -/
def ProperInit (initFn : InitFn) : Prop :=
  ∀ k, initFn k ≠ (none, none)

end GojaRuntime

/-!
# Loading extensions

Shallow embedding of `internal/extension_repo`: the exception normalizer and
the hook handler of `goja_plugin.go`, the plugin constructor, and the loaders
of `goja_plugin.go`, `external_manga_provider.go` and
`external_anime_torrent_provider.go`.

The script engine is outside the repository.  What the claims need of it is
modelled directly: the value a script value exports to, the binding of the
global `init` of a runtime, and what evaluating a source text does to it.
-/

namespace ExtensionRepo

mutual
/-- A Go value of type `any`, as `Value.Export()` returns it: nil, a value that
is neither an error nor a `map[string]any`, an error, or a `map[string]any`. -/
inductive Exported where
  | null
  | plain (v : String)
  | error (e : ErrorValue)
  | record (fields : List (String × Exported))
/-- A Go error that is not nil: an error of the host, an error that wraps
another one (`fmt.Errorf` with `%w`), or a `*goja.Exception` with the value
`jsException.Value().Export()`. -/
inductive ErrorValue where
  | host (msg : String)
  | wrapped (msg : String) (inner : ErrorValue)
  | exception (value : Exported)
end

/-- A Go `error`; `none` is the nil error. -/
abbrev GoErr := Option ErrorValue

/-- The type assertion `err.(*goja.Exception)` followed by `Value().Export()`:
the exported value when the error is a script exception. -/
def ErrorValue.asException : ErrorValue → Option Exported
  | ErrorValue.exception value => some value
  | _ => none

/-- The type assertion `x.(error)` on a value of type `any`. -/
def Exported.asError : Exported → Option ErrorValue
  | Exported.error e => some e
  | _ => none

/-- The map index `v[key]`: nil when the key is absent. -/
def index (v : List (String × Exported)) (key : String) : Exported :=
  (v.lookup key).getD Exported.null

/-- The function `normalizeException`. -/
def normalizeException (err : GoErr) : GoErr :=
  match err with
  | none => none
  | some e =>
    match e.asException with
    | none => some e
    | some exported =>
      match exported with
      | Exported.error v => some v
      | Exported.record v =>
        match (index v "value").asError with
        | some vErr => some vErr
        | none => some e
      | _ => some e

/-- The normalizer as the specification words it: nil maps to nil; an exception
whose exported value is a host error maps to that error; an exception whose
exported value is a record holding a host error under `"value"` maps to the
embedded error; every other error is returned as it is. -/
def normalizeExceptionRef : GoErr → GoErr
  | none => none
  | some (ErrorValue.exception (Exported.error hostErr)) => some hostErr
  | some (ErrorValue.exception (Exported.record fields)) =>
    match fields.lookup "value" with
    | some (Exported.error embedded) => some embedded
    | _ => some (ErrorValue.exception (Exported.record fields))
  | some e => some e

/-! ## The hook handler -/

/-- What `executor.RunProgram(pr)` does: the program completes with a value
(given by what it exports to; `none` is a nil value), or it raises an error.
`RunProgram` returns a nil value whenever it returns an error. -/
inductive RunOutcome where
  | completed (res : Option Exported)
  | raised (err : ErrorValue)

/-- The pair `res, err` that `RunProgram` returns. -/
def RunOutcome.results : RunOutcome → Option Exported × GoErr
  | RunOutcome.completed res => (res, none)
  | RunOutcome.raised err => (none, some err)

/-- The callback that the handler of `BindHooks` passes to `Run`: after running
the program it returns a Go error the script returned, if any, and otherwise
the normalized error of the run. -/
def handlerCallback (program : Nat → RunOutcome) (executor : Nat) : GoErr :=
  let out := (program executor).results
  match out.1 with
  | some res =>
    match res.asError with
    | some resErr => some resErr
    | none => normalizeException out.2
  | none => normalizeException out.2

/-- Modelled from the spec: `Manager.Run` is not in the sources.  It borrows a
runtime from the plugin pool, calls its callback on it, releases the runtime
and passes the callback's error through. -/
def Run (fn : Nat → GoErr) (executor : Nat) : GoErr :=
  fn executor

/-- The handler that `BindHooks` builds with `reflect.MakeFunc`: its single
result is the error of `Run`. -/
def hookHandler (program : Nat → RunOutcome) (executor : Nat) : GoErr :=
  Run (handlerCallback program) executor

/-! ## Extensions and the bank -/

/-- The type `extension.Language`, a string. -/
abbrev Language := String

/-- Modelled from the spec: the constants of `extension.Language` are not in
the sources; the two authoring dialects are JavaScript and TypeScript. -/
def LanguageJavascript : Language := "javascript"

/-- Modelled from the spec: see `LanguageJavascript`. -/
def LanguageTypescript : Language := "typescript"

/-- The struct `extension.Extension`, with the fields the tests set; `ExtType`
is the field `Type`. -/
structure Extension where
  ID : String
  Name : String
  Version : String
  ManifestURI : String
  Language : Language
  ExtType : String
  Description : String
  Author : String
  Payload : String
deriving DecidableEq, Repr

/-- What a load stores in the bank: the results of `NewPluginExtension`,
`NewAnimeTorrentProviderExtension` and `NewMangaProviderExtension`.  A provider
is the pointer the constructor returned. -/
inductive BaseExtension where
  | plugin (ext : Extension)
  | animeTorrentProvider (ext : Extension) (provider : Option Nat)
  | mangaProvider (ext : Extension) (provider : Option Nat)
deriving DecidableEq, Repr

/-- The extension bank: the entry stored under each identity. -/
abbrev Bank := String → Option BaseExtension

/-- Modelled from the spec: `extensionBank.Set` is not in the sources.  The bank
maps an identity to a realized capability; `Set` stores the entry under the
identity and touches no other one. -/
def Bank.Set (bank : Bank) (id : String) (entry : BaseExtension) : Bank :=
  fun x => if x = id then some entry else bank x

/-- The struct `Repository`, reduced to its extension bank. -/
structure Repository where
  extensionBank : Bank

/-- A call that returns, or panics. -/
inductive Outcome (α : Type) where
  | returned (a : α)
  | panicked (msg : String)

/-! ## The loader runtime and the plugin constructor -/

/-- A value the global scope of a runtime binds a name to: `undefined`, a
function (named by a number, with the error a call of it raises, if any), or a
value that cannot be called. -/
inductive JSValue where
  | undefined
  | function (id : Nat) (raises : GoErr)
  | plain (v : String)

/-- What evaluating a source text does: the value it binds the global `init`
to, if it declares one, and the error the evaluation raises, if any. -/
structure Script where
  defines : Option JSValue
  raises : GoErr

/-- The state of the loader runtime: the binding of the global `init` (`none`
when the global object has no such property) and the initializers invoked in
it so far, oldest first. -/
structure Loader where
  init : Option JSValue
  invoked : List Nat

/-- What lies outside the sources: the converter `JSVMTypescriptToJS`, the
result of `runtimeManager.GetOrCreatePluginPool`, and the meaning of every
source text. -/
structure Host where
  JSVMTypescriptToJS : String → String × GoErr
  pluginPool : Option Nat × GoErr
  script : String → Script

/-- The call `loader.Get(name)`; only the global `init` is modelled. -/
def Loader.Get (l : Loader) (name : String) : Option JSValue :=
  if name = "init" then l.init else none

/-- The call `loader.RunString(source)`: the error it returns and the loader
afterwards.  The global scope persists from one call to the next.  The source
`init();` calls what the global `init` is bound to. -/
def Loader.RunString (h : Host) (l : Loader) (source : String) : Loader × GoErr :=
  if source = "init();" then
    match l.init with
    | some (JSValue.function id raises) => ({ l with invoked := l.invoked ++ [id] }, raises)
    | some _ =>
      (l, some (ErrorValue.exception (Exported.plain "TypeError: init is not a function")))
    | none =>
      (l, some (ErrorValue.exception (Exported.plain "ReferenceError: init is not defined")))
  else
    ({ l with
        init := match (h.script source).defines with
          | some v => some v
          | none => l.init },
      (h.script source).raises)

/-- The struct `GojaPlugin` (logger and runtime manager are left out). -/
structure GojaPlugin where
  ext : Extension
  pool : Option Nat
deriving DecidableEq, Repr

/-- The constructor `NewGojaPlugin`: its two results and the loader
afterwards. -/
def NewGojaPlugin (h : Host) (loader : Loader) (ext : Extension) (language : Language) :
    (Option GojaPlugin × GoErr) × Loader :=
  let conv := if language = LanguageTypescript then h.JSVMTypescriptToJS ext.Payload
    else (ext.Payload, none)
  match conv.2 with
  | some err => ((none, some err), loader)
  | none =>
    match h.pluginPool.2 with
    | some err => ((none, some err), loader)
    | none =>
      let evaluated := loader.RunString h conv.1
      match evaluated.2 with
      | some err => ((none, some err), evaluated.1)
      | none =>
        match evaluated.1.Get "init" with
        | none => ((some { ext := ext, pool := h.pluginPool.1 }, none), evaluated.1)
        | some JSValue.undefined =>
          ((some { ext := ext, pool := h.pluginPool.1 }, none), evaluated.1)
        | some _ =>
          let initialized := evaluated.1.RunString h "init();"
          match initialized.2 with
          | some err =>
            ((none, some (ErrorValue.wrapped "failed to run init: " err)), initialized.1)
          | none => ((some { ext := ext, pool := h.pluginPool.1 }, none), initialized.1)

/-! ## The loaders -/

/-- The provider constructors `NewGojaMangaProvider` and
`NewGojaAnimeTorrentProvider`, which are not in the sources: each returns a
provider and an error, or panics. -/
structure Constructors where
  NewGojaMangaProvider : Extension → Language → Outcome (Option Nat × GoErr)
  NewGojaAnimeTorrentProvider : Extension → Language → Outcome (Option Nat × GoErr)

/-- Modelled from the spec: `util.HandlePanicInModuleWithError` is not in the
sources.  Deferred by every top-level loader, it recovers a panic raised while
loading and converts it into the load error; the repository is as the panic
left it. -/
def HandlePanicInModuleWithError (module : String) (atPanic : Repository)
    (body : Outcome (GoErr × Repository)) : GoErr × Repository :=
  match body with
  | Outcome.returned res => res
  | Outcome.panicked msg => (some (ErrorValue.host (module ++ ": panic: " ++ msg)), atPanic)

/-- The method `Repository.loadPluginExtensionJS`: the error, the repository and
the loader afterwards. -/
def loadPluginExtensionJS (h : Host) (r : Repository) (loader : Loader) (ext : Extension)
    (language : Language) : (GoErr × Repository) × Loader :=
  let made := NewGojaPlugin h loader ext language
  match made.1.2 with
  | some err => ((some err, r), made.2)
  | none =>
    ((none, { r with extensionBank := r.extensionBank.Set ext.ID (BaseExtension.plugin ext) }),
      made.2)

/-- The method `Repository.loadPluginExtension`.  No step of the plugin path
panics in this model, so its deferred recovery has nothing to recover. -/
def loadPluginExtension (h : Host) (r : Repository) (loader : Loader) (ext : Extension) :
    (GoErr × Repository) × Loader :=
  if ext.Language = LanguageJavascript then
    loadPluginExtensionJS h r loader ext LanguageJavascript
  else if ext.Language = LanguageTypescript then
    loadPluginExtensionJS h r loader ext LanguageTypescript
  else
    ((some (ErrorValue.host ("unsupported language: " ++ ext.Language)), r), loader)

/-- The method `Repository.loadExternalAnimeTorrentProviderExtensionJS`. -/
def loadExternalAnimeTorrentProviderExtensionJS (c : Constructors) (r : Repository)
    (ext : Extension) (language : Language) : Outcome (GoErr × Repository) :=
  match c.NewGojaAnimeTorrentProvider ext language with
  | Outcome.panicked msg => Outcome.panicked msg
  | Outcome.returned made =>
    match made.2 with
    | some err => Outcome.returned (some err, r)
    | none =>
      Outcome.returned
        (none,
          { r with extensionBank :=
            r.extensionBank.Set ext.ID (BaseExtension.animeTorrentProvider ext made.1) })

/-- The method `Repository.loadExternalAnimeTorrentProviderExtension`. -/
def loadExternalAnimeTorrentProviderExtension (c : Constructors) (r : Repository)
    (ext : Extension) : GoErr × Repository :=
  HandlePanicInModuleWithError "extension_repo/loadExternalAnimeTorrentProviderExtension" r
    (if ext.Language = LanguageJavascript then
      loadExternalAnimeTorrentProviderExtensionJS c r ext LanguageJavascript
    else if ext.Language = LanguageTypescript then
      loadExternalAnimeTorrentProviderExtensionJS c r ext LanguageTypescript
    else
      Outcome.returned (some (ErrorValue.host ("unsupported language: " ++ ext.Language)), r))

/-- The method `Repository.loadExternalMangaExtensionJS`. -/
def loadExternalMangaExtensionJS (c : Constructors) (r : Repository) (ext : Extension)
    (language : Language) : Outcome (GoErr × Repository) :=
  match c.NewGojaMangaProvider ext language with
  | Outcome.panicked msg => Outcome.panicked msg
  | Outcome.returned made =>
    match made.2 with
    | some err => Outcome.returned (some err, r)
    | none =>
      Outcome.returned
        (none,
          { r with extensionBank :=
            r.extensionBank.Set ext.ID (BaseExtension.mangaProvider ext made.1) })

/-- The method `Repository.loadExternalMangaExtension`: its `switch` has no
`default` case, so with any other language `err` keeps its zero value. -/
def loadExternalMangaExtension (c : Constructors) (r : Repository) (ext : Extension) :
    GoErr × Repository :=
  HandlePanicInModuleWithError "extension_repo/loadExternalMangaExtension" r
    (if ext.Language = LanguageJavascript then
      loadExternalMangaExtensionJS c r ext LanguageJavascript
    else if ext.Language = LanguageTypescript then
      loadExternalMangaExtensionJS c r ext LanguageTypescript
    else
      Outcome.returned (none, r))

/-! ## Concrete inputs -/

/-- A plugin whose source declares the global `init`. -/
def pluginWithInit : Extension :=
  { ID := "plugin-a", Name := "Plugin A", Version := "0.1.0", ManifestURI := "",
    Language := LanguageJavascript, ExtType := "plugin", Description := "", Author := "",
    Payload := "var init = () => 1" }

/-- A plugin whose source declares no `init`. -/
def pluginWithoutInit : Extension :=
  { ID := "plugin-b", Name := "Plugin B", Version := "0.1.0", ManifestURI := "",
    Language := LanguageJavascript, ExtType := "plugin", Description := "", Author := "",
    Payload := "var loaded = true" }

/-- A manga provider written in a language that is neither JavaScript nor
TypeScript. -/
def mangaExtInGo : Extension :=
  { ID := "my-manga-provider", Name := "MyMangaProvider", Version := "0.1.0", ManifestURI := "",
    Language := "go", ExtType := "manga-provider", Description := "", Author := "",
    Payload := "package main" }

/-- A host in which conversion and pool creation succeed, the source of
`pluginWithInit` binds `init` to the function 1, which raises nothing, and
every other source declares no `init`. -/
def demoHost : Host :=
  { JSVMTypescriptToJS := fun source => (source, none)
    pluginPool := (some 0, none)
    script := fun source =>
      if source = pluginWithInit.Payload then
        { defines := some (JSValue.function 1 none), raises := none }
      else { defines := none, raises := none } }

/-- A loader runtime in which nothing was loaded. -/
def freshLoader : Loader := { init := none, invoked := [] }

/-- Constructors of which the manga one succeeds with the provider 7 and the
torrent one fails. -/
def demoConstructors : Constructors :=
  { NewGojaMangaProvider := fun _ _ => Outcome.returned (some 7, none)
    NewGojaAnimeTorrentProvider := fun _ _ =>
      Outcome.returned (none, some (ErrorValue.host "evaluation failed")) }

/-- A repository with an empty bank. -/
def emptyRepository : Repository := { extensionBank := fun _ => none }

end ExtensionRepo

namespace GojaRuntime

/-! ## Sequential calls: the capacity accounting -/

theorem NewPool_accounted {N : Int} {initFn : InitFn} {p : Pool}
    (h : NewPool N initFn = some p) : p.Accounted ∧ p.maxSize = N := by
  unfold NewPool at h
  split at h
  · simp at h
  · simp only [Option.some.injEq] at h
    subst h
    refine ⟨⟨?_, ?_, ?_⟩, rfl⟩
    · simp only [Int.toNat_of_nonneg (by omega : (0 : Int) ≤ N)]
    · simp only [List.length_nil]; omega
    · simp only [List.length_nil]; omega

theorem Get_maxSize (p : Pool) (w : World) (ctx : Context) :
    (p.Get w ctx).2.1.maxSize = p.maxSize := by
  unfold Pool.Get
  split
  · rfl
  · dsimp only
    split
    · split <;> rfl
    · split <;> rfl

theorem Get_accounted (p : Pool) (w : World) (ctx : Context) (h : p.Accounted) :
    (p.Get w ctx).2.1.Accounted := by
  obtain ⟨hc, hl, hs⟩ := h
  unfold Pool.Get
  split
  · rename_i r rest hb
    rw [hb] at hs hl
    simp only [List.length_cons, Nat.cast_add, Nat.cast_one] at hs
    simp only [List.length_cons] at hl
    exact ⟨hc, by simp only; omega, by simp only; omega⟩
  · rename_i hb
    rw [hb] at hs
    simp only [List.length_nil, Nat.cast_zero] at hs
    dsimp only
    split
    · split
      · exact ⟨hc, hl, by simp only [hb, List.length_nil, Nat.cast_zero]; omega⟩
      · exact ⟨hc, hl, by simp only [hb, List.length_nil, Nat.cast_zero]; omega⟩
    · rename_i hlt
      split
      · exact ⟨hc, hl, by simp only [hb, List.length_nil, Nat.cast_zero]; omega⟩
      · exact ⟨hc, hl, by simp only [hb, List.length_nil, Nat.cast_zero]; omega⟩

theorem Put_maxSize (p : Pool) (w : World) (runtime : Runtime) :
    (p.Put w runtime).1.maxSize = p.maxSize := by
  unfold Pool.Put
  split
  · rfl
  · dsimp only
    split <;> rfl

theorem Put_accounted (p : Pool) (w : World) (runtime : Runtime) (h : p.Accounted) :
    (p.Put w runtime).1.Accounted := by
  obtain ⟨hc, hl, hs⟩ := h
  unfold Pool.Put
  split
  · exact ⟨hc, hl, hs⟩
  · dsimp only
    split
    · rename_i hlt
      exact ⟨hc, by simp only [List.length_append, List.length_singleton]; omega,
        by simp only [List.length_append, List.length_singleton, Nat.cast_add,
          Nat.cast_one]; omega⟩
    · exact ⟨hc, hl, by simp only; omega⟩

theorem runCall_accounted (s : Pool × World) (c : Call) (h : s.1.Accounted) :
    (runCall s c).1.Accounted ∧ (runCall s c).1.maxSize = s.1.maxSize := by
  cases c with
  | get ctx => exact ⟨Get_accounted _ _ _ h, Get_maxSize _ _ _⟩
  | put r => exact ⟨Put_accounted _ _ _ h, Put_maxSize _ _ _⟩

theorem runCalls_accounted (cs : List Call) (s : Pool × World) (h : s.1.Accounted) :
    (runCalls s cs).1.Accounted ∧ (runCalls s cs).1.maxSize = s.1.maxSize := by
  induction cs generalizing s with
  | nil => exact ⟨h, rfl⟩
  | cons c cs ih =>
    have h1 := runCall_accounted s c h
    have h2 := ih (runCall s c) h1.1
    exact ⟨h2.1, h2.2.trans h1.2⟩

theorem Accounted.active_le {p : Pool} (h : p.Accounted) : p.active ≤ p.maxSize := by
  have := h.sum_le
  omega

/-! ## Single calls of `Get` -/

/-- C3: on a pool with an empty idle queue and `active < maxSize`, when `initFn`
returns the error `e`, `Get` returns `(nil, e)`; afterwards `active` and the
idle queue are what they were, `errors` has grown by exactly 1 and `created`,
`reused` and `timeouts` are unchanged. -/
theorem Get_init_error (p : Pool) (w : World) (ctx : Context) (e : String)
    (hidle : p.runtimes.buf = []) (hroom : p.active < p.maxSize)
    (herr : (p.initFn w.initCalls).2 = some e) :
    (p.Get w ctx).1 = GetResult.returned none (some e) ∧
      (p.Get w ctx).2.1.active = p.active ∧
      (p.Get w ctx).2.1.runtimes = p.runtimes ∧
      (p.Get w ctx).2.1.metrics.errors = p.metrics.errors + 1 ∧
      (p.Get w ctx).2.1.metrics.created = p.metrics.created ∧
      (p.Get w ctx).2.1.metrics.reused = p.metrics.reused ∧
      (p.Get w ctx).2.1.metrics.timeouts = p.metrics.timeouts := by
  unfold Pool.Get
  rw [hidle]
  simp [not_le.mpr hroom, herr]

theorem Get_init_error_witness :
    ((Pool.fresh 1 failingInit).Get quietWorld Context.never).1 =
        GetResult.returned none (some "init failed") ∧
      ((Pool.fresh 1 failingInit).Get quietWorld Context.never).2.1.active = 0 ∧
      ((Pool.fresh 1 failingInit).Get quietWorld Context.never).2.1.runtimes =
        { buf := [], cap := 1 } ∧
      ((Pool.fresh 1 failingInit).Get quietWorld Context.never).2.1.metrics.errors = 0 + 1 ∧
      ((Pool.fresh 1 failingInit).Get quietWorld Context.never).2.1.metrics.created = 0 ∧
      ((Pool.fresh 1 failingInit).Get quietWorld Context.never).2.1.metrics.reused = 0 ∧
      ((Pool.fresh 1 failingInit).Get quietWorld Context.never).2.1.metrics.timeouts = 0 :=
  Get_init_error (Pool.fresh 1 failingInit) quietWorld Context.never "init failed" rfl
    (by decide) rfl

/-- C4: on a pool with an empty idle queue and `active >= maxSize`, `Get` called
with a context that is done returns a nil runtime and the context's error,
increments `timeouts` by exactly 1, does not call `initFn` (the heap, with its
count of initializer calls, is unchanged) and leaves `active`, the idle queue
and the other three counters unchanged. -/
theorem Get_done_context_at_capacity (p : Pool) (w : World) (e : String)
    (hidle : p.runtimes.buf = []) (hfull : p.active ≥ p.maxSize) :
    (p.Get w (Context.done e)).1 = GetResult.returned none (some e) ∧
      (p.Get w (Context.done e)).2.1.metrics.timeouts = p.metrics.timeouts + 1 ∧
      (p.Get w (Context.done e)).2.2 = w ∧
      (p.Get w (Context.done e)).2.1.active = p.active ∧
      (p.Get w (Context.done e)).2.1.runtimes = p.runtimes ∧
      (p.Get w (Context.done e)).2.1.metrics.created = p.metrics.created ∧
      (p.Get w (Context.done e)).2.1.metrics.reused = p.metrics.reused ∧
      (p.Get w (Context.done e)).2.1.metrics.errors = p.metrics.errors := by
  unfold Pool.Get
  rw [hidle]
  simp [hfull]

theorem Get_done_context_at_capacity_witness :
    ((Pool.fresh 0 countingInit).Get quietWorld (Context.done "deadline exceeded")).1 =
        GetResult.returned none (some "deadline exceeded") ∧
      ((Pool.fresh 0 countingInit).Get quietWorld
        (Context.done "deadline exceeded")).2.1.metrics.timeouts = 0 + 1 ∧
      ((Pool.fresh 0 countingInit).Get quietWorld (Context.done "deadline exceeded")).2.2 =
        quietWorld :=
  have h := Get_done_context_at_capacity (Pool.fresh 0 countingInit) quietWorld
    "deadline exceeded" rfl (by decide)
  ⟨h.1, h.2.1, h.2.2.1⟩

/-- C9: on a pool whose idle queue is not empty, for every context `Get`
returns the oldest idle runtime with a nil error without calling `initFn` (the
heap is unchanged); the idle queue has lost exactly that runtime, `active` and
`reused` have each grown by exactly 1, and `created`, `errors`, `timeouts` are
unchanged.  On a pool whose idle queue is empty and with `active < maxSize`,
`Get` calls `initFn` once (the count of initializer calls grows by 1) and, when
that returns a nil error, returns its runtime with `active` and `created` each
grown by exactly 1. -/
theorem Get_idle_first_else_create (p : Pool) (w : World) (ctx : Context) :
    (∀ r rest, p.runtimes.buf = r :: rest →
      (p.Get w ctx).1 = GetResult.returned (some r) none ∧
        (p.Get w ctx).2.2 = w ∧
        (p.Get w ctx).2.1.runtimes.buf = rest ∧
        (p.Get w ctx).2.1.active = p.active + 1 ∧
        (p.Get w ctx).2.1.metrics.reused = p.metrics.reused + 1 ∧
        (p.Get w ctx).2.1.metrics.created = p.metrics.created ∧
        (p.Get w ctx).2.1.metrics.errors = p.metrics.errors ∧
        (p.Get w ctx).2.1.metrics.timeouts = p.metrics.timeouts) ∧
    (p.runtimes.buf = [] → p.active < p.maxSize →
      (p.Get w ctx).2.2.initCalls = w.initCalls + 1 ∧
        ∀ runtime, p.initFn w.initCalls = (runtime, none) →
          (p.Get w ctx).1 = GetResult.returned runtime none ∧
            (p.Get w ctx).2.1.active = p.active + 1 ∧
            (p.Get w ctx).2.1.metrics.created = p.metrics.created + 1) := by
  constructor
  · intro r rest hb
    unfold Pool.Get
    rw [hb]
    exact ⟨rfl, rfl, rfl, rfl, rfl, rfl, rfl, rfl⟩
  · intro hb hroom
    constructor
    · unfold Pool.Get
      rw [hb]
      simp only [ge_iff_le, not_le.mpr hroom, if_false]
      split <;> rfl
    · intro runtime hinit
      unfold Pool.Get
      rw [hb]
      simp [not_le.mpr hroom, hinit]

theorem Get_idle_first_else_create_witness :
    (({ Pool.fresh 2 countingInit with runtimes := { buf := [7, 8], cap := 2 } } : Pool).Get
        quietWorld (Context.done "canceled")).1 = GetResult.returned (some 7) none ∧
      ((Pool.fresh 2 countingInit).Get quietWorld Context.never).1 =
        GetResult.returned (some 0) none :=
  ⟨((Get_idle_first_else_create
      ({ Pool.fresh 2 countingInit with runtimes := { buf := [7, 8], cap := 2 } } : Pool)
      quietWorld (Context.done "canceled")).1 7 [8] rfl).1,
   (((Get_idle_first_else_create (Pool.fresh 2 countingInit) quietWorld Context.never).2 rfl
      (by decide)).2 (some 0) rfl).1⟩

/-! ## `Put` -/

theorem Put_some_eq (p : Pool) (w : World) (r : RuntimeId) :
    p.Put w (some r) =
      (if p.runtimes.buf.length < p.runtimes.cap then
        ({ p with
            active := p.active + (-1)
            runtimes := { p.runtimes with buf := p.runtimes.buf ++ [r] } },
          ClearInterrupt w r)
      else ({ p with active := p.active + (-1) }, ClearInterrupt w r)) := rfl

theorem Get_create_eq (p : Pool) (w : World) (ctx : Context) (runtime : Runtime)
    (hidle : p.runtimes.buf = []) (hroom : p.active < p.maxSize)
    (hinit : p.initFn w.initCalls = (runtime, none)) :
    p.Get w ctx =
      (GetResult.returned runtime none,
        { p with
          active := p.active + 1
          metrics := { p.metrics with created := p.metrics.created + 1 } },
        { w with initCalls := w.initCalls + 1 }) := by
  unfold Pool.Get
  rw [hidle]
  simp [not_le.mpr hroom, hinit]

theorem Get_reuse_eq (p : Pool) (w : World) (ctx : Context) (r : RuntimeId)
    (rest : List RuntimeId) (hidle : p.runtimes.buf = r :: rest) :
    p.Get w ctx =
      (GetResult.returned (some r) none,
        { p with
          runtimes := { p.runtimes with buf := rest }
          metrics := { p.metrics with reused := p.metrics.reused + 1 }
          active := p.active + 1 },
        w) := by
  unfold Pool.Get
  rw [hidle]

/-- C5, as stated, fails: on a new pool of capacity 2 the calls `Get`, `Put(0)`
leave `active = 0` and the idle queue `[0]`; a second `Put(0)` brings `active`
to `-1` and the idle queue to `[0, 0]`. -/
theorem Put_twice_is_not_noop :
    ((runCalls (Pool.fresh 2 countingInit, quietWorld)
        [Call.get Context.never, Call.put (some 0)]).1.active = 0 ∧
      (runCalls (Pool.fresh 2 countingInit, quietWorld)
        [Call.get Context.never, Call.put (some 0)]).1.runtimes.buf = [0]) ∧
    ((runCalls (Pool.fresh 2 countingInit, quietWorld)
        [Call.get Context.never, Call.put (some 0), Call.put (some 0)]).1.active = -1 ∧
      (runCalls (Pool.fresh 2 countingInit, quietWorld)
        [Call.get Context.never, Call.put (some 0), Call.put (some 0)]).1.runtimes.buf =
          [0, 0]) := by
  refine ⟨⟨?_, ?_⟩, ?_, ?_⟩ <;> decide

/-- C5, amended: `Put(nil)` changes nothing, and a second `Put(r)` of a non-nil
runtime that was already released leaves the four counters unchanged, but it
decrements `active` by 1 once more and, when the idle queue has room, appends
`r` to it a second time (the queue is unchanged only when it is full). -/
theorem Put_nil_noop_and_second_Put (p : Pool) (w : World) (r : RuntimeId) :
    p.Put w none = (p, w) ∧
      ((p.Put w (some r)).1.Put (p.Put w (some r)).2 (some r)).1.metrics =
        (p.Put w (some r)).1.metrics ∧
      ((p.Put w (some r)).1.Put (p.Put w (some r)).2 (some r)).1.active =
        (p.Put w (some r)).1.active - 1 ∧
      ((p.Put w (some r)).1.Put (p.Put w (some r)).2 (some r)).1.runtimes.buf =
        (if (p.Put w (some r)).1.runtimes.buf.length < (p.Put w (some r)).1.runtimes.cap then
          (p.Put w (some r)).1.runtimes.buf ++ [r]
        else (p.Put w (some r)).1.runtimes.buf) := by
  refine ⟨rfl, ?_, ?_, ?_⟩
  · rw [Put_some_eq (p.Put w (some r)).1]
    split <;> rfl
  · rw [Put_some_eq (p.Put w (some r)).1]
    split <;> simp only <;> omega
  · rw [Put_some_eq (p.Put w (some r)).1]
    split <;> rfl

/-- C6: on a new pool of capacity `N >= 1` whose initializer succeeds with the
runtime `r`, the sequence `r1 := Get; Put(r1); r2 := Get` succeeds twice, hands
back the same runtime both times, and ends with `Stats()` equal to
`created: 1, reused: 1, errors: 0, timeouts: 0`. -/
theorem Get_Put_Get_reuses (N : Int) (initFn : InitFn) (p : Pool) (w : World) (c1 c2 : Context)
    (r : RuntimeId) (hN : 1 ≤ N) (hp : NewPool N initFn = some p)
    (hinit : initFn w.initCalls = (some r, none)) :
    (getPutGet p w c1 c2).1 = GetResult.returned (some r) none ∧
      (getPutGet p w c1 c2).2.1 = GetResult.returned (some r) none ∧
      (getPutGet p w c1 c2).2.2.1.Stats =
        [("created", 1), ("reused", 1), ("errors", 0), ("timeouts", 0)] := by
  unfold NewPool at hp
  rw [if_neg (by omega)] at hp
  simp only [Option.some.injEq] at hp
  subst hp
  have hcap : 0 < N.toNat := by omega
  have hg1 := Get_create_eq
    { runtimes := { buf := [], cap := N.toNat }, initFn := initFn, active := 0, maxSize := N,
      metrics := { created := 0, reused := 0, errors := 0, timeouts := 0 } }
    w c1 (some r) rfl (by simp only; omega) hinit
  unfold getPutGet
  simp only [hg1, GetResult.runtime, Put_some_eq, List.length_nil, hcap, if_true,
    List.nil_append]
  rw [Get_reuse_eq _ _ c2 r [] rfl]
  simp [Pool.Stats]

theorem Get_Put_Get_reuses_witness :
    (getPutGet (Pool.fresh 1 countingInit) quietWorld Context.never Context.never).1 =
        GetResult.returned (some 0) none ∧
      (getPutGet (Pool.fresh 1 countingInit) quietWorld Context.never Context.never).2.1 =
        GetResult.returned (some 0) none ∧
      (getPutGet (Pool.fresh 1 countingInit) quietWorld Context.never
        Context.never).2.2.1.Stats =
        [("created", 1), ("reused", 1), ("errors", 0), ("timeouts", 0)] :=
  Get_Put_Get_reuses 1 countingInit (Pool.fresh 1 countingInit) quietWorld Context.never
    Context.never 0 (by decide) rfl rfl

theorem Put_eq_PutRef_of_accounted (p : Pool) (w : World) (runtime : Runtime)
    (h : p.Accounted) : (p.Put w runtime).1 = PutRef p runtime := by
  cases runtime with
  | none => rfl
  | some r =>
    rw [Put_some_eq]
    unfold PutRef
    have hc := h.cap_eq
    by_cases hlt : p.runtimes.buf.length < p.runtimes.cap
    · have hlt2 : (p.runtimes.buf.length : Int) < p.maxSize := by omega
      simp only [hlt, hlt2, if_true]
      rfl
    · have hlt2 : ¬ (p.runtimes.buf.length : Int) < p.maxSize := by omega
      simp only [hlt, hlt2, if_false]
      rfl

theorem Put_metrics (p : Pool) (w : World) (runtime : Runtime) :
    (p.Put w runtime).1.metrics = p.metrics := by
  cases runtime with
  | none => rfl
  | some r =>
    rw [Put_some_eq]
    split <;> rfl

/-- C8: in every state of a pool created by `NewPool` and used through `Get` and
`Put`, `Put` does what the reference definition `PutRef` says (nil: nothing;
otherwise `active` drops by exactly 1 and the runtime is appended to the idle
queue if that holds fewer than `maxSize` runtimes, and dropped if not); it
changes no counter, and afterwards the idle queue holds at most `maxSize`
runtimes. -/
theorem Put_refines_PutRef (N : Int) (initFn : InitFn) (p0 : Pool) (w0 : World)
    (cs : List Call) (runtime : Runtime) (h : NewPool N initFn = some p0) :
    ((runCalls (p0, w0) cs).1.Put (runCalls (p0, w0) cs).2 runtime).1 =
        PutRef (runCalls (p0, w0) cs).1 runtime ∧
      ((runCalls (p0, w0) cs).1.Put (runCalls (p0, w0) cs).2 runtime).1.metrics =
        (runCalls (p0, w0) cs).1.metrics ∧
      (((runCalls (p0, w0) cs).1.Put (runCalls (p0, w0) cs).2 runtime).1.runtimes.buf.length :
        Int) ≤ N := by
  obtain ⟨hacc, hN⟩ := NewPool_accounted h
  obtain ⟨h1, h2⟩ := runCalls_accounted cs (p0, w0) hacc
  refine ⟨Put_eq_PutRef_of_accounted _ _ _ h1, Put_metrics _ _ _, ?_⟩
  have h3 := Put_accounted _ (runCalls (p0, w0) cs).2 runtime h1
  have h4 := h3.len_le
  have h5 := h3.cap_eq
  rw [Put_maxSize, h2, hN] at h5
  omega

theorem Put_refines_PutRef_witness :
    NewPool 1 countingInit = some (Pool.fresh 1 countingInit) ∧
      ((runCalls (Pool.fresh 1 countingInit, quietWorld) [Call.get Context.never]).1.Put
          (runCalls (Pool.fresh 1 countingInit, quietWorld) [Call.get Context.never]).2
          (some 0)).1 =
        PutRef (runCalls (Pool.fresh 1 countingInit, quietWorld) [Call.get Context.never]).1
          (some 0) :=
  ⟨rfl, (Put_refines_PutRef 1 countingInit (Pool.fresh 1 countingInit) quietWorld
    [Call.get Context.never] (some 0) rfl).1⟩

/-! ## Sequential calls in `int32` arithmetic -/

theorem wrap32_of_range (x : Int) (hlo : -2147483648 ≤ x) (hhi : x < 2147483648) :
    wrap32 x = x := by
  unfold wrap32
  omega

theorem wrap32_add (x y : Int) : wrap32 (wrap32 x + y) = wrap32 (x + y) := by
  unfold wrap32
  omega

theorem Put32_some_active (p : Pool) (w : World) (r : RuntimeId) :
    (p.Put32 w (some r)).1.active = wrap32 (p.active + (-1)) := by
  unfold Pool.Put32
  dsimp only
  split <;> rfl

theorem runCalls32_unmatched_Puts (r : RuntimeId) (n : Nat) (p : Pool) (w : World) :
    (runCalls32 (p, w) (List.replicate (n + 1) (Call.put (some r)))).1.active =
      wrap32 (p.active - ((n : Int) + 1)) := by
  induction n generalizing p w with
  | zero =>
    simp only [List.replicate, runCalls32, List.foldl, runCall32, Put32_some_active]
    congr 1
  | succ n ih =>
    have hstep : runCalls32 (p, w) (List.replicate (n + 1 + 1) (Call.put (some r))) =
        runCalls32 ((p.Put32 w (some r)).1, (p.Put32 w (some r)).2)
          (List.replicate (n + 1) (Call.put (some r))) := rfl
    rw [hstep, ih, Put32_some_active, sub_eq_add_neg, wrap32_add]
    congr 1
    push_cast
    ring

theorem Get32_eq_Get (p : Pool) (w : World) (ctx : Context) (hacc : p.Accounted)
    (hN : p.maxSize < 2147483648) (hlo : -2147483648 ≤ p.active) :
    p.Get32 w ctx = p.Get w ctx := by
  have hs := hacc.sum_le
  unfold Pool.Get32 Pool.Get
  cases hb : p.runtimes.buf with
  | cons r rest =>
    rw [hb] at hs
    simp only [List.length_cons, Nat.cast_add, Nat.cast_one] at hs
    simp only
    rw [wrap32_of_range (p.active + 1) (by omega) (by omega)]
  | nil =>
    simp only
    by_cases hfull : p.active ≥ p.maxSize
    · simp only [hfull, if_true]
    · simp only [hfull, if_false]
      rw [wrap32_of_range (p.active + 1) (by omega) (by omega),
        wrap32_of_range (p.active + 1 + -1) (by omega) (by omega)]

theorem Put32_eq_Put (p : Pool) (w : World) (runtime : Runtime)
    (hlo : -2147483648 < p.active) (hhi : p.active ≤ 2147483648) :
    p.Put32 w runtime = p.Put w runtime := by
  unfold Pool.Put32 Pool.Put
  cases runtime with
  | none => rfl
  | some r =>
    simp only
    rw [wrap32_of_range (p.active + -1) (by omega) (by omega)]

theorem Get_active_ge (p : Pool) (w : World) (ctx : Context) :
    p.active ≤ (p.Get w ctx).2.1.active := by
  unfold Pool.Get
  split
  · simp only; omega
  · dsimp only
    split
    · split <;> simp only <;> omega
    · split <;> simp only <;> omega

theorem Put_active_ge (p : Pool) (w : World) (runtime : Runtime) :
    p.active - 1 ≤ (p.Put w runtime).1.active := by
  cases runtime with
  | none => show p.active - 1 ≤ p.active; omega
  | some r =>
    rw [Put_some_eq]
    split <;> simp only <;> omega

theorem runCalls32_eq_runCalls (cs : List Call) (p : Pool) (w : World) (k : Nat)
    (hacc : p.Accounted) (hN : p.maxSize < 2147483648) (hlo : -(k : Int) ≤ p.active)
    (hputs : k + putCount cs ≤ 2147483648) :
    runCalls32 (p, w) cs = runCalls (p, w) cs := by
  induction cs generalizing p w k with
  | nil => rfl
  | cons c cs ih =>
    have hhi := Accounted.active_le hacc
    cases c with
    | get ctx =>
      have hstep : runCall32 (p, w) (Call.get ctx) = runCall (p, w) (Call.get ctx) := by
        simp only [runCall32, runCall]
        rw [Get32_eq_Get p w ctx hacc hN (by omega)]
      have hput : putCount (Call.get ctx :: cs) = putCount cs := rfl
      rw [hput] at hputs
      show runCalls32 (runCall32 (p, w) (Call.get ctx)) cs =
        runCalls (runCall (p, w) (Call.get ctx)) cs
      rw [hstep]
      have h1 := runCall_accounted (p, w) (Call.get ctx) hacc
      have h2 : p.active ≤ (runCall (p, w) (Call.get ctx)).1.active := Get_active_ge p w ctx
      exact ih (runCall (p, w) (Call.get ctx)).1 (runCall (p, w) (Call.get ctx)).2 k h1.1
        (by rw [h1.2]; exact hN) (by omega) hputs
    | put runtime =>
      have h1 := runCall_accounted (p, w) (Call.put runtime) hacc
      cases runtime with
      | none =>
        have hput : putCount (Call.put none :: cs) = putCount cs := rfl
        rw [hput] at hputs
        exact ih p w k hacc hN hlo hputs
      | some r =>
        have hput : putCount (Call.put (some r) :: cs) = putCount cs + 1 := rfl
        rw [hput] at hputs
        have hstep : runCall32 (p, w) (Call.put (some r)) = runCall (p, w) (Call.put (some r)) := by
          simp only [runCall32, runCall]
          rw [Put32_eq_Put p w (some r) (by omega) (by omega)]
        show runCalls32 (runCall32 (p, w) (Call.put (some r))) cs =
          runCalls (runCall (p, w) (Call.put (some r))) cs
        rw [hstep]
        have h2 : p.active - 1 ≤ (runCall (p, w) (Call.put (some r))).1.active :=
          Put_active_ge p w (some r)
        exact ih (runCall (p, w) (Call.put (some r))).1 (runCall (p, w) (Call.put (some r))).2
          (k + 1) h1.1 (by rw [h1.2]; exact hN) (by push_cast; omega) (by omega)

theorem putCount_take_le (cs : List Call) (k : Nat) : putCount (cs.take k) ≤ putCount cs := by
  induction cs generalizing k with
  | nil => simp [putCount]
  | cons c cs ih =>
    cases k with
    | zero => simp [putCount]
    | succ k =>
      have := ih k
      cases c with
      | get ctx => simpa [List.take, putCount] using this
      | put runtime =>
        cases runtime with
        | none => simpa [List.take, putCount] using this
        | some r => simpa [List.take, putCount] using this

/-- C1, as stated, fails in the `int32` arithmetic of `active`: on the new pool
of capacity 1, after 2^31 + 1 calls of `Put` with the runtime 0 and no `Get`,
`active` has wrapped to 2147483647, which is above the capacity. -/
theorem unmatched_Puts_wrap_active :
    NewPool 1 countingInit = some (Pool.fresh 1 countingInit) ∧
      (runCalls32 (Pool.fresh 1 countingInit, quietWorld)
        (List.replicate 2147483649 (Call.put (some 0)))).1.active = 2147483647 ∧
      ¬ (runCalls32 (Pool.fresh 1 countingInit, quietWorld)
        (List.replicate 2147483649 (Call.put (some 0)))).1.active ≤ 1 := by
  have h := runCalls32_unmatched_Puts 0 2147483648 (Pool.fresh 1 countingInit) quietWorld
  have hval : wrap32 ((Pool.fresh 1 countingInit).active - (((2147483648 : Nat) : Int) + 1)) =
      2147483647 := by
    simp only [Pool.fresh, wrap32]
    omega
  rw [hval] at h
  have hlen : (2147483649 : Nat) = 2147483648 + 1 := rfl
  rw [hlen]
  refine ⟨rfl, h, ?_⟩
  rw [h]
  omega

/-- C1, amended: in the `int32` arithmetic of `active`, on a pool created by
`NewPool N initFn` with a capacity `N` that is an `int32`, after each call of
any finite sequence of `Get` and `Put` calls executed one after another that
holds at most 2^31 calls of `Put` with a runtime that is not nil (the state
after the first `k` calls, for every `k`), `active` is at most `N` and the
length of the idle queue plus `active` is at most `N`. -/
theorem Pool_sequential_capacity_invariant (N : Int) (initFn : InitFn) (p : Pool) (w : World)
    (cs : List Call) (k : Nat) (h : NewPool N initFn = some p) (hN : N < 2147483648)
    (hputs : putCount cs ≤ 2147483648) :
    (runCalls32 (p, w) (cs.take k)).1.active ≤ N ∧
      ((runCalls32 (p, w) (cs.take k)).1.runtimes.buf.length : Int) +
        (runCalls32 (p, w) (cs.take k)).1.active ≤ N := by
  obtain ⟨hacc, hmax⟩ := NewPool_accounted h
  have hzero : p.active = 0 := by
    unfold NewPool at h
    split at h
    · simp at h
    · simp only [Option.some.injEq] at h
      subst h
      rfl
  have hsim := runCalls32_eq_runCalls (cs.take k) p w 0 hacc (by rw [hmax]; exact hN)
    (by rw [hzero]; simp) (by have := putCount_take_le cs k; omega)
  rw [hsim]
  obtain ⟨h1, h2⟩ := runCalls_accounted (cs.take k) (p, w) hacc
  rw [← hmax, ← h2]
  exact ⟨Accounted.active_le h1, h1.sum_le⟩

theorem Pool_sequential_capacity_invariant_witness :
    NewPool 1 countingInit = some (Pool.fresh 1 countingInit) ∧
      (runCalls32 (Pool.fresh 1 countingInit, quietWorld)
        ([Call.get Context.never, Call.put (some 0), Call.put (some 0),
          Call.get Context.never].take 4)).1.active ≤ 1 ∧
      ((runCalls32 (Pool.fresh 1 countingInit, quietWorld)
        ([Call.get Context.never, Call.put (some 0), Call.put (some 0),
          Call.get Context.never].take 4)).1.runtimes.buf.length : Int) +
        (runCalls32 (Pool.fresh 1 countingInit, quietWorld)
          ([Call.get Context.never, Call.put (some 0), Call.put (some 0),
            Call.get Context.never].take 4)).1.active ≤ 1 :=
  ⟨rfl, Pool_sequential_capacity_invariant 1 countingInit (Pool.fresh 1 countingInit) quietWorld
    [Call.get Context.never, Call.put (some 0), Call.put (some 0), Call.get Context.never] 4
    rfl (by decide) (by decide)⟩

/-! ## Pending interrupts of idle runtimes -/

theorem Get_initFn (p : Pool) (w : World) (ctx : Context) :
    (p.Get w ctx).2.1.initFn = p.initFn := by
  unfold Pool.Get
  split
  · rfl
  · dsimp only
    split
    · split <;> rfl
    · split <;> rfl

theorem Put_initFn (p : Pool) (w : World) (runtime : Runtime) :
    (p.Put w runtime).1.initFn = p.initFn := by
  cases runtime with
  | none => rfl
  | some r =>
    rw [Put_some_eq]
    split <;> rfl

theorem Client.use_initFn (s : Client) (u : Use) : (s.use u).pool.initFn = s.pool.initFn := by
  cases u with
  | get ctx => exact Get_initFn _ _ _
  | put runtime => exact Put_initFn _ _ _
  | interrupt r =>
    unfold Client.use
    dsimp only
    split <;> rfl

theorem Client.sound_get (s : Client) (ctx : Context) (hfresh : FreshInit s.pool.initFn)
    (h : s.Sound) : (s.use (Use.get ctx)).Sound := by
  obtain ⟨hclear, hnodup, halloc⟩ := h
  unfold Client.use
  dsimp only
  cases hb : s.pool.runtimes.buf with
  | cons r rest =>
    rw [Get_reuse_eq s.pool s.world ctx r rest hb]
    rw [hb] at hclear hnodup halloc
    refine ⟨?_, ?_, ?_⟩
    · intro x hx
      exact hclear x (List.mem_cons_of_mem _ hx)
    · simp only [heldAfterGet]
      exact (List.perm_middle.nodup_iff).mpr hnodup
    · intro x hx
      simp only [heldAfterGet] at hx
      exact halloc x ((List.perm_middle.mem_iff).mp hx)
  | nil =>
    rw [hb] at hclear hnodup halloc
    by_cases hfull : s.pool.active ≥ s.pool.maxSize
    · have hget : s.pool.Get s.world ctx =
          (match ctx with
            | Context.done e =>
              (GetResult.returned none (some e),
                { s.pool with
                  metrics := { s.pool.metrics with timeouts := s.pool.metrics.timeouts + 1 } },
                s.world)
            | Context.never => (GetResult.blocked, s.pool, s.world)) := by
        unfold Pool.Get
        rw [hb]
        simp only [hfull, if_true]
      rw [hget]
      cases ctx with
      | never => exact ⟨by rw [hb]; exact hclear, by rw [hb]; exact hnodup,
          by rw [hb]; exact halloc⟩
      | done e => exact ⟨by simp only [hb]; exact hclear, by simp only [hb]; exact hnodup,
          by simp only [hb]; exact halloc⟩
    · have hroom : s.pool.active < s.pool.maxSize := by omega
      cases hres : s.pool.initFn s.world.initCalls with
      | mk runtime err =>
        cases err with
        | some e =>
          have hget : s.pool.Get s.world ctx =
              (GetResult.returned none (some e),
                { s.pool with
                  active := s.pool.active + 1 + (-1)
                  metrics := { s.pool.metrics with errors := s.pool.metrics.errors + 1 } },
                { s.world with initCalls := s.world.initCalls + 1 }) := by
            unfold Pool.Get
            rw [hb]
            simp [not_le.mpr hroom, hres]
          rw [hget]
          refine ⟨by simp only [hb]; exact hclear, by simp only [hb]; exact hnodup, ?_⟩
          intro x hx
          simp only [hb] at hx
          obtain ⟨i, hi, hx2⟩ := halloc x hx
          exact ⟨i, Nat.lt_succ_of_lt hi, hx2⟩
        | none =>
          rw [Get_create_eq s.pool s.world ctx runtime hb hroom hres]
          cases runtime with
          | none =>
            refine ⟨by simp only [hb]; exact hclear, by simp only [hb]; exact hnodup, ?_⟩
            intro x hx
            simp only [hb] at hx
            obtain ⟨i, hi, hx2⟩ := halloc x hx
            exact ⟨i, Nat.lt_succ_of_lt hi, hx2⟩
          | some r =>
            have hnew : (s.pool.initFn s.world.initCalls).1 = some r := by rw [hres]
            have hnotin : r ∉ s.held := by
              intro hmem
              obtain ⟨i, hi, hx2⟩ := halloc r (by simpa using hmem)
              have := hfresh i s.world.initCalls r hx2 hnew
              omega
            refine ⟨by simp only [hb]; exact hclear, ?_, ?_⟩
            · simp only [hb, heldAfterGet, List.nil_append]
              simp only [List.nil_append] at hnodup
              exact List.nodup_cons.mpr ⟨hnotin, hnodup⟩
            · intro x hx
              simp only [hb, heldAfterGet, List.nil_append, List.mem_cons] at hx
              rcases hx with hx | hx
              · subst hx
                exact ⟨s.world.initCalls, Nat.lt_succ_self _, hnew⟩
              · obtain ⟨i, hi, hx2⟩ := halloc x (by simpa using hx)
                exact ⟨i, Nat.lt_succ_of_lt hi, hx2⟩

theorem Client.sound_put (s : Client) (r : RuntimeId) (hheld : r ∈ s.held) (h : s.Sound) :
    (s.use (Use.put (some r))).Sound := by
  obtain ⟨hclear, hnodup, halloc⟩ := h
  have hperm : (s.pool.runtimes.buf ++ r :: s.held.erase r).Perm (s.pool.runtimes.buf ++ s.held) :=
    List.Perm.append_left _ (List.perm_cons_erase hheld).symm
  have hnotbuf : r ∉ s.pool.runtimes.buf := by
    intro hmem
    exact (List.nodup_append.mp hnodup).2.2 hmem hheld
  unfold Client.use
  dsimp only
  rw [Put_some_eq]
  by_cases hlt : s.pool.runtimes.buf.length < s.pool.runtimes.cap
  · simp only [hlt, if_true]
    refine ⟨?_, ?_, ?_⟩
    · intro x hx
      simp only [List.mem_append, List.mem_singleton] at hx
      simp only [ClearInterrupt]
      by_cases hxr : x = r
      · simp only [hxr, if_true]
      · simp only [hxr, if_false]
        rcases hx with hx | hx
        · exact hclear x hx
        · exact absurd hx hxr
    · simp only [List.append_assoc, List.singleton_append]
      exact hperm.nodup_iff.mpr hnodup
    · intro x hx
      simp only [List.append_assoc, List.singleton_append] at hx
      exact halloc x (hperm.mem_iff.mp hx)
  · simp only [hlt, if_false]
    have hsub : (s.pool.runtimes.buf ++ s.held.erase r).Sublist (s.pool.runtimes.buf ++ s.held) :=
      List.Sublist.append_left (List.erase_sublist r s.held) _
    refine ⟨?_, hnodup.sublist hsub, ?_⟩
    · intro x hx
      simp only [ClearInterrupt]
      by_cases hxr : x = r
      · simp only [hxr, if_true]
      · simp only [hxr, if_false]
        exact hclear x hx
    · intro x hx
      exact halloc x (hsub.subset hx)

theorem Client.sound_interrupt (s : Client) (r : RuntimeId) (h : s.Sound) :
    (s.use (Use.interrupt r)).Sound := by
  obtain ⟨hclear, hnodup, halloc⟩ := h
  unfold Client.use
  dsimp only
  by_cases hheld : r ∈ s.held
  · simp only [hheld, if_true]
    refine ⟨?_, hnodup, halloc⟩
    intro x hx
    simp only [Interrupt]
    have hxr : x ≠ r := by
      intro hxr
      subst hxr
      exact (List.nodup_append.mp hnodup).2.2 hx hheld
    simp only [hxr, if_false]
    exact hclear x hx
  · simp only [hheld, if_false]
    exact ⟨hclear, hnodup, halloc⟩

theorem Client.sound_uses (us : List Use) (s : Client) (hfresh : FreshInit s.pool.initFn)
    (hrel : s.releasesHeld us) (h : s.Sound) : (s.uses us).Sound := by
  induction us generalizing s with
  | nil => exact h
  | cons u us ih =>
    have hfresh2 : FreshInit (s.use u).pool.initFn := by rw [Client.use_initFn]; exact hfresh
    cases u with
    | get ctx =>
      exact ih (s.use (Use.get ctx)) hfresh2 hrel (Client.sound_get s ctx hfresh h)
    | interrupt r =>
      exact ih (s.use (Use.interrupt r)) hfresh2 hrel (Client.sound_interrupt s r h)
    | put runtime =>
      cases runtime with
      | none => exact ih (s.use (Use.put none)) hfresh2 hrel h
      | some r =>
        exact ih (s.use (Use.put (some r))) hfresh2 hrel.2 (Client.sound_put s r hrel.1 h)

theorem Put_clears_interrupt (p : Pool) (w : World) (r : RuntimeId) :
    (p.Put w (some r)).2.interrupted r = false := by
  rw [Put_some_eq]
  split <;> simp [ClearInterrupt]

theorem countingInit_fresh : FreshInit countingInit := by
  intro i j r hi hj
  exact (Option.some.inj hi).trans (Option.some.inj hj).symm

/-- C7, as stated, fails when a runtime is released twice: on a new pool of
capacity 2, after `Get`, `Put(0)`, `Put(0)`, `Get` the runtime 0 is checked out
and still in the idle queue; once the script running on it is interrupted the
idle queue `[0]` holds a runtime whose flag is set, and the next `Get` returns
it from the idle queue with the interrupt pending. -/
theorem idle_runtime_interrupted_after_double_Put :
    ((Client.start (Pool.fresh 2 countingInit) quietWorld).uses
        doubleReleaseUses).pool.runtimes.buf = [0] ∧
      ((Client.start (Pool.fresh 2 countingInit) quietWorld).uses
        doubleReleaseUses).world.interrupted 0 = true ∧
      (((Client.start (Pool.fresh 2 countingInit) quietWorld).uses
        doubleReleaseUses).pool.Get
          ((Client.start (Pool.fresh 2 countingInit) quietWorld).uses doubleReleaseUses).world
          Context.never).1 = GetResult.returned (some 0) none ∧
      (((Client.start (Pool.fresh 2 countingInit) quietWorld).uses
        doubleReleaseUses).pool.Get
          ((Client.start (Pool.fresh 2 countingInit) quietWorld).uses doubleReleaseUses).world
          Context.never).2.2.interrupted 0 = true := by
  refine ⟨?_, ?_, ?_, ?_⟩ <;> decide

/-- C7, amended: `Put` clears the flag of the runtime it is given; and on a pool
created by `NewPool` whose initializer builds a new runtime at every call, in
every state reached by `Get`, `Put` and interrupts of checked-out runtimes in
which every `Put` releases a runtime that is checked out at that moment (no
runtime is released twice), every runtime in the idle queue has its flag
cleared, and a `Get` served from the idle queue returns the oldest idle runtime
with no interrupt pending. -/
theorem idle_runtimes_uninterrupted (N : Int) (initFn : InitFn) (p : Pool) (w : World)
    (us : List Use) (ctx : Context) (hp : NewPool N initFn = some p)
    (hfresh : FreshInit initFn) (hrel : (Client.start p w).releasesHeld us) :
    (∀ (q : Pool) (v : World) (r : RuntimeId), (q.Put v (some r)).2.interrupted r = false) ∧
      (∀ r ∈ ((Client.start p w).uses us).pool.runtimes.buf,
        ((Client.start p w).uses us).world.interrupted r = false) ∧
      (∀ r rest, ((Client.start p w).uses us).pool.runtimes.buf = r :: rest →
        (((Client.start p w).uses us).pool.Get ((Client.start p w).uses us).world ctx).1 =
            GetResult.returned (some r) none ∧
          (((Client.start p w).uses us).pool.Get
            ((Client.start p w).uses us).world ctx).2.2.interrupted r = false) := by
  have hinit : p.initFn = initFn := by
    unfold NewPool at hp
    split at hp
    · simp at hp
    · simp only [Option.some.injEq] at hp
      subst hp
      rfl
  have hbuf : p.runtimes.buf = [] := by
    unfold NewPool at hp
    split at hp
    · simp at hp
    · simp only [Option.some.injEq] at hp
      subst hp
      rfl
  have hstart : (Client.start p w).Sound := by
    refine ⟨?_, ?_, ?_⟩
    · intro r hr
      simp only [Client.start, hbuf, List.not_mem_nil] at hr
    · simp only [Client.start, hbuf, List.append_nil, List.nodup_nil]
    · intro r hr
      simp only [Client.start, hbuf, List.append_nil, List.not_mem_nil] at hr
  have hsound := Client.sound_uses us (Client.start p w)
    (by simp only [Client.start, hinit]; exact hfresh) hrel hstart
  refine ⟨Put_clears_interrupt, hsound.idle_clear, ?_⟩
  intro r rest hb
  rw [Get_reuse_eq _ _ ctx r rest hb]
  exact ⟨rfl, hsound.idle_clear r (by rw [hb]; exact List.mem_cons_self _ _)⟩

theorem idle_runtimes_uninterrupted_witness :
    ((Client.start (Pool.fresh 2 countingInit) quietWorld).uses
        interruptedThenReleased).pool.runtimes.buf = [0] ∧
      ∀ r ∈ ((Client.start (Pool.fresh 2 countingInit) quietWorld).uses
          interruptedThenReleased).pool.runtimes.buf,
        ((Client.start (Pool.fresh 2 countingInit) quietWorld).uses
          interruptedThenReleased).world.interrupted r = false :=
  ⟨by decide,
    (idle_runtimes_uninterrupted 2 countingInit (Pool.fresh 2 countingInit) quietWorld
      interruptedThenReleased Context.never rfl countingInit_fresh
      ⟨List.mem_cons_self 0 [], trivial⟩).2.1⟩

/-! ## Concurrent callers

A goroutine that runs a whole call alone does what `Pool.Get` and `Pool.Put`
say; the interleavings are what the concurrent execution adds. -/

theorem Conc.run_lonePut (s : Conc) (t : ThreadId) (r : RuntimeId)
    (hout : (s.threads t).loc = Loc.out) (hheld : r ∈ (s.threads t).held) :
    ∃ s1, s.run ((lonePut r).map (Prod.mk t)) = some s1 ∧
      (s1.pool, s1.world) = s.pool.Put s.world (some r) ∧
      s1.threads t = { loc := Loc.out, held := (s.threads t).held.erase r } := by
  rw [Put_some_eq]
  by_cases hlt : s.pool.runtimes.buf.length < s.pool.runtimes.cap
  · simp [lonePut, Conc.run, Conc.step, Conc.goto, Conc.setThread, hout, hheld, hlt]
  · simp [lonePut, Conc.run, Conc.step, Conc.goto, Conc.setThread, hout, hheld, hlt]

theorem Conc.run_loneGet (s : Conc) (t : ThreadId) (ctx : Context)
    (hout : (s.threads t).loc = Loc.out) :
    ∃ s1, s.run ((loneGet s.pool s.world ctx).map (Prod.mk t)) = some s1 ∧
      (s1.pool, s1.world) = (s.pool.Get s.world ctx).2 ∧
      ((s.pool.Get s.world ctx).1 = GetResult.blocked → (s1.threads t).loc = Loc.getWait ctx) ∧
      ((s.pool.Get s.world ctx).1 ≠ GetResult.blocked →
        s1.threads t =
          { loc := Loc.out
            held := heldAfterGet (s.threads t).held (s.pool.Get s.world ctx).1 }) := by
  cases hb : s.pool.runtimes.buf with
  | cons r rest =>
    rw [Get_reuse_eq s.pool s.world ctx r rest hb]
    simp [loneGet, hb, Conc.run, Conc.step, Conc.goto, Conc.setThread, Conc.receive, hout,
      heldAfterGet]
  | nil =>
    by_cases hfull : s.pool.active ≥ s.pool.maxSize
    · cases ctx with
      | never =>
        simp [loneGet, Pool.Get, hb, hfull, Conc.run, Conc.step, Conc.goto, Conc.setThread,
          Conc.receive, hout, heldAfterGet]
      | done e =>
        simp [loneGet, Pool.Get, hb, hfull, Conc.run, Conc.step, Conc.goto, Conc.setThread,
          Conc.receive, hout, heldAfterGet]
    · cases hres : s.pool.initFn s.world.initCalls with
      | mk runtime err =>
        cases err with
        | some e =>
          simp [loneGet, Pool.Get, hb, hfull, hres, Conc.run, Conc.step, Conc.goto,
            Conc.setThread, Conc.receive, hout, heldAfterGet]
        | none =>
          cases runtime with
          | none =>
            simp [loneGet, Pool.Get, hb, hfull, hres, Conc.run, Conc.step, Conc.goto,
              Conc.setThread, Conc.receive, hout, heldAfterGet]
          | some r =>
            simp [loneGet, Pool.Get, hb, hfull, hres, Conc.run, Conc.step, Conc.goto,
              Conc.setThread, Conc.receive, hout, heldAfterGet]

theorem racingSchedule_before_last_Get :
    (((Conc.start (Pool.fresh 1 countingInit) quietWorld).run (racingSchedule.take 16)).map
      Conc.observe) =
      some (1, 1, [0], { loc := Loc.out, held := [] }, { loc := Loc.out, held := [1] }) := by
  decide

theorem racingSchedule_observed :
    (((Conc.start (Pool.fresh 1 countingInit) quietWorld).run racingSchedule).map
      Conc.observe) =
      some (2, 1, [], { loc := Loc.out, held := [0] }, { loc := Loc.out, held := [1] }) := by
  decide

/-- C2 fails on the code: interleaving `Get` and `Put` of two goroutines on a
new pool of capacity 1, each releasing only what it obtained from `Get`, reaches
a state where both goroutines are outside any call, each holds a runtime, and
`active = 2 > maxSize = 1`. -/
theorem concurrent_Get_Put_exceeds_capacity :
    ∃ s, Conc.Reachable 1 countingInit s ∧ s.pool.maxSize = 1 ∧ s.pool.active = 2 ∧
      s.threads 0 = { loc := Loc.out, held := [0] } ∧
      s.threads 1 = { loc := Loc.out, held := [1] } := by
  have h := racingSchedule_observed
  cases hrun : (Conc.start (Pool.fresh 1 countingInit) quietWorld).run racingSchedule with
  | none => rw [hrun] at h; simp at h
  | some s =>
    rw [hrun] at h
    simp only [Option.map_some', Option.some.injEq, Conc.observe, Prod.mk.injEq] at h
    exact ⟨s, ⟨Pool.fresh 1 countingInit, quietWorld, racingSchedule, rfl, hrun⟩,
      h.2.1, h.1, h.2.2.2.1, h.2.2.2.2⟩

/-! ## The registry of pools -/

theorem GetOrCreatePool_registered (m : Manager) (extID : String) (initFn : InitFn) (a : Nat)
    (h : m.pools extID = some a) : m.GetOrCreatePool extID initFn = some ((a, none), m) := by
  unfold Manager.GetOrCreatePool
  rw [h]

theorem GetOrCreatePool_absent (m : Manager) (extID : String) (initFn : InitFn) (pool : Pool)
    (h : m.pools extID = none) (hp : NewPool m.maxPerExt initFn = some pool) :
    m.GetOrCreatePool extID initFn =
      some ((m.heap.length, none),
        { m with
          heap := m.heap ++ [pool]
          pools := fun x => if x = extID then some m.heap.length else m.pools x }) := by
  unfold Manager.GetOrCreatePool
  simp only [h, hp]

/-- C10, as stated, fails in two ways.  On a manager whose registry already
holds a pool for `"ext"`, created with the initializer `failingInit`, the call
`GetOrCreatePool("ext", countingInit)` returns that pool, whose initializer is
still `failingInit` and not the one passed.  On a manager with a negative
`maxPerExt` the first call for an unregistered identity panics in `NewPool`. -/
theorem GetOrCreatePool_keeps_first_initializer :
    (((NewManager 1).GetOrCreatePool "ext" failingInit).bind fun r1 =>
      (r1.2.GetOrCreatePool "ext" countingInit).bind fun r2 =>
        (r2.2.deref r2.1.1).map fun pool => (r1.1, r2.1, pool.initFn 0, countingInit 0)) =
      some ((0, none), (0, none), (none, some "init failed"), (some 0, none)) ∧
    (NewManager (-1)).GetOrCreatePool "ext" countingInit = none := by
  constructor <;> rfl

/-- C10, amended: on every manager state on which the first call does not panic
(`maxPerExt` is not negative, or the identity is already registered),
`GetOrCreatePool(id, f)` followed by `GetOrCreatePool(id, g)` returns the same
pool both times with a nil error; the second call leaves the manager unchanged
and ignores `g`; no call changes the entry of another identity or an existing
pool.  When the identity was not registered before the first call, the pool is
the new pool `NewPool(maxPerExt, f)`, with initializer `f` and capacity
`maxPerExt`; when it was registered, the first call too returns the registered
pool and changes nothing, ignoring `f`. -/
theorem GetOrCreatePool_idempotent (m : Manager) (extID : String) (f g : InitFn)
    (hok : 0 ≤ m.maxPerExt ∨ (m.pools extID).isSome) :
    ∃ pool m1,
      m.GetOrCreatePool extID f = some ((pool, none), m1) ∧
      m1.GetOrCreatePool extID g = some ((pool, none), m1) ∧
      m1.pools extID = some pool ∧
      (∀ x, x ≠ extID → m1.pools x = m.pools x) ∧
      (∀ a, a < m.heap.length → m1.deref a = m.deref a) ∧
      (m.pools extID = none →
        m1.deref pool = NewPool m.maxPerExt f ∧
        ∃ q, m1.deref pool = some q ∧ q.initFn = f ∧ q.maxSize = m.maxPerExt) ∧
      (∀ a, m.pools extID = some a → pool = a ∧ m1 = m) := by
  cases hreg : m.pools extID with
  | some a =>
    refine ⟨a, m, GetOrCreatePool_registered m extID f a hreg,
      GetOrCreatePool_registered m extID g a hreg, hreg, fun _ _ => rfl, fun _ _ => rfl, ?_, ?_⟩
    · intro h
      exact absurd h (by simp)
    · intro b hb
      exact ⟨(Option.some.inj hb), rfl⟩
  | none =>
    have hcap : 0 ≤ m.maxPerExt := by
      rcases hok with h | h
      · exact h
      · rw [hreg] at h
        exact absurd h (by simp)
    have hnew : ∃ q, NewPool m.maxPerExt f = some q ∧ q.initFn = f ∧ q.maxSize = m.maxPerExt := by
      unfold NewPool
      rw [if_neg (by omega)]
      exact ⟨_, rfl, rfl, rfl⟩
    obtain ⟨q, hq, hqf, hqm⟩ := hnew
    refine ⟨m.heap.length, _, GetOrCreatePool_absent m extID f q hreg hq, ?_, ?_, ?_, ?_, ?_, ?_⟩
    · exact GetOrCreatePool_registered _ extID g m.heap.length (by simp)
    · simp
    · intro x hx
      simp [hx]
    · intro a ha
      simp only [Manager.deref]
      exact List.getElem?_append_left ha
    · intro _
      have hd : Manager.deref
          { m with
            heap := m.heap ++ [q]
            pools := fun x => if x = extID then some m.heap.length else m.pools x }
          m.heap.length = some q := by
        simp [Manager.deref]
      exact ⟨hd.trans hq.symm, q, hd, hqf, hqm⟩
    · intro a ha
      exact absurd ha (by simp)

theorem GetOrCreatePool_idempotent_witness :
    ∃ pool m1,
      (NewManager 3).GetOrCreatePool "ext" countingInit = some ((pool, none), m1) ∧
      m1.GetOrCreatePool "ext" failingInit = some ((pool, none), m1) ∧
      m1.pools "ext" = some pool :=
  have h := GetOrCreatePool_idempotent (NewManager 3) "ext" countingInit failingInit
    (Or.inl (by decide))
  h.elim fun pool h1 => h1.elim fun m1 h2 => ⟨pool, m1, h2.1, h2.2.1, h2.2.2.1⟩

/-! ## Teardown -/

theorem countingInit_proper : ProperInit countingInit := by
  intro k h
  simp [countingInit] at h

theorem Get_nil_error_has_runtime (p : Pool) (w : World) (ctx : Context) (runtime : Runtime)
    (hinit : ProperInit p.initFn) (h : (p.Get w ctx).1 = GetResult.returned runtime none) :
    runtime ≠ none := by
  cases hb : p.runtimes.buf with
  | cons r rest =>
    rw [Get_reuse_eq p w ctx r rest hb] at h
    simp only [GetResult.returned.injEq, and_true] at h
    rw [← h]
    simp
  | nil =>
    unfold Pool.Get at h
    rw [hb] at h
    dsimp only at h
    split at h
    · split at h <;> simp at h
    · split at h
      · simp at h
      · rename_i herr
        simp only [GetResult.returned.injEq, and_true] at h
        intro hnil
        rw [hnil] at h
        exact hinit w.initCalls (Prod.ext h herr)

/-- Before teardown: on an open pool whose initializer never returns a nil
runtime with a nil error, a `Get` that returns a nil error returns a runtime
that is not nil. -/
theorem Get_open_nil_error_has_runtime (s : PoolState) (w : World) (ctx : Context)
    (runtime : Runtime) (hopen : s.closed = false) (hinit : ProperInit s.pool.initFn)
    (h : (s.Get w ctx).1 = GetResult.returned runtime none) : runtime ≠ none := by
  unfold PoolState.Get at h
  simp only [hopen, Bool.false_eq_true, false_and, if_false] at h
  exact Get_nil_error_has_runtime s.pool w ctx runtime hinit h

/-- C16 fails on the code: on a new pool of capacity 1 whose initializer always
builds a runtime, `Cleanup` followed by `Get` returns a nil runtime with a nil
error, and counts it as a reuse. -/
theorem Get_after_Cleanup_returns_nil :
    ProperInit countingInit ∧
      (((PoolState.start (Pool.fresh 1 countingInit)).run quietWorld [Op.cleanup]).map
        fun s => ((s.1.Get s.2 Context.never).1, (s.1.Get s.2 Context.never).2.1.pool.active,
          (s.1.Get s.2 Context.never).2.1.pool.metrics)) =
        some (GetResult.returned none none, 1,
          { created := 0, reused := 1, errors := 0, timeouts := 0 }) :=
  ⟨countingInit_proper, by decide⟩

end GojaRuntime

namespace ExtensionRepo

/-! ## The exception normalizer -/

theorem normalizeException_eq_ref (err : GoErr) :
    normalizeException err = normalizeExceptionRef err := by
  cases err with
  | none => rfl
  | some e =>
    cases e with
    | host msg => rfl
    | wrapped msg inner => rfl
    | exception value =>
      cases value with
      | null => rfl
      | plain v => rfl
      | error h => rfl
      | record fields =>
        simp only [normalizeException, normalizeExceptionRef, ErrorValue.asException, index]
        cases hl : fields.lookup "value" with
        | none => rfl
        | some x => cases x <;> rfl

/-- C11: `normalizeException` equals the reference definition
`normalizeExceptionRef` on every error value.  Clause by clause: nil maps to
nil; an error that is not a script exception is returned unchanged; an
exception whose exported value is a host error maps to that error; an exception
whose exported value is a record holding a host error under `"value"` maps to
the embedded error; an exception whose exported value is neither (a plain
value, nil, or a record without an error under `"value"`) is returned
unchanged. -/
theorem normalizeException_refines (err : GoErr) :
    normalizeException err = normalizeExceptionRef err ∧
      normalizeException none = none ∧
      (∀ e, e.asException = none → normalizeException (some e) = some e) ∧
      (∀ h, normalizeException (some (ErrorValue.exception (Exported.error h))) = some h) ∧
      (∀ fields h, fields.lookup "value" = some (Exported.error h) →
        normalizeException (some (ErrorValue.exception (Exported.record fields))) = some h) ∧
      (∀ value, value.asError = none →
        (∀ fields h, value = Exported.record fields →
          fields.lookup "value" ≠ some (Exported.error h)) →
        normalizeException (some (ErrorValue.exception value)) =
          some (ErrorValue.exception value)) := by
  refine ⟨normalizeException_eq_ref err, rfl, ?_, fun _ => rfl, ?_, ?_⟩
  · intro e he
    simp only [normalizeException, he]
  · intro fields h hl
    simp only [normalizeException, ErrorValue.asException, index, hl, Option.getD_some,
      Exported.asError]
  · intro value hne hrec
    cases value with
    | null => rfl
    | plain v => rfl
    | error h => simp [Exported.asError] at hne
    | record fields =>
      simp only [normalizeException, ErrorValue.asException, index]
      cases hl : fields.lookup "value" with
      | none => rfl
      | some x =>
        cases x with
        | error h => exact absurd hl (hrec fields h rfl)
        | null => rfl
        | plain v => rfl
        | record g => rfl

theorem normalizeException_refines_witness :
    normalizeException (some (ErrorValue.host "not found")) = some (ErrorValue.host "not found") ∧
      normalizeException
          (some (ErrorValue.exception
            (Exported.record [("name", Exported.plain "GoError"),
              ("value", Exported.error (ErrorValue.host "not found"))]))) =
        some (ErrorValue.host "not found") ∧
      normalizeException (some (ErrorValue.exception (Exported.plain "42"))) =
        some (ErrorValue.exception (Exported.plain "42")) :=
  have h := normalizeException_refines none
  ⟨h.2.2.1 (ErrorValue.host "not found") rfl,
   h.2.2.2.2.1 [("name", Exported.plain "GoError"),
      ("value", Exported.error (ErrorValue.host "not found"))] (ErrorValue.host "not found") rfl,
   h.2.2.2.2.2 (Exported.plain "42") rfl (fun fields h hv => by cases hv)⟩

/-! ## The hook handler -/

theorem normalizeException_some_ne_none (e : ErrorValue) :
    normalizeException (some e) ≠ none := by
  rw [normalizeException_eq_ref]
  cases e with
  | host msg => simp [normalizeExceptionRef]
  | wrapped msg inner => simp [normalizeExceptionRef]
  | exception value =>
    cases value with
    | null => simp [normalizeExceptionRef]
    | plain v => simp [normalizeExceptionRef]
    | error h => simp [normalizeExceptionRef]
    | record fields =>
      simp only [normalizeExceptionRef]
      split <;> simp

/-- C14: with `Run` passing its callback's error through, when running the
wrapped handler raises `err` the single result of the hook handler is
`normalizeException(err)`, which is not nil; the result is nil exactly when the
run raised no error and the value the script returned does not export to a host
error; a host error that the script returned is the result. -/
theorem hookHandler_result (program : Nat → RunOutcome) (executor : Nat) :
    (∀ err, program executor = RunOutcome.raised err →
      hookHandler program executor = normalizeException (some err) ∧
        hookHandler program executor ≠ none) ∧
    (hookHandler program executor = none ↔
      ∃ res, program executor = RunOutcome.completed res ∧
        ∀ v, res = some v → v.asError = none) ∧
    (∀ v e, program executor = RunOutcome.completed (some v) → v.asError = some e →
      hookHandler program executor = some e) := by
  refine ⟨?_, ?_, ?_⟩
  · intro err h
    have heq : hookHandler program executor = normalizeException (some err) := by
      simp only [hookHandler, Run, handlerCallback, h, RunOutcome.results]
    exact ⟨heq, heq ▸ normalizeException_some_ne_none err⟩
  · cases h : program executor with
    | raised err =>
      have heq : hookHandler program executor = normalizeException (some err) := by
        simp only [hookHandler, Run, handlerCallback, h, RunOutcome.results]
      constructor
      · intro hnil
        exact absurd (heq ▸ hnil) (normalizeException_some_ne_none err)
      · rintro ⟨res, hres, _⟩
        cases hres
    | completed res =>
      cases res with
      | none =>
        constructor
        · intro _
          exact ⟨none, rfl, fun v hv => by cases hv⟩
        · intro _
          simp only [hookHandler, Run, handlerCallback, h, RunOutcome.results, normalizeException]
      | some v =>
        cases hv : v.asError with
        | none =>
          constructor
          · intro _
            exact ⟨some v, rfl, fun u hu => by cases hu; exact hv⟩
          · intro _
            simp only [hookHandler, Run, handlerCallback, h, RunOutcome.results, hv,
              normalizeException]
        | some e =>
          have heq : hookHandler program executor = some e := by
            simp only [hookHandler, Run, handlerCallback, h, RunOutcome.results, hv]
          constructor
          · intro hnil
            rw [heq] at hnil
            cases hnil
          · rintro ⟨res, hres, hall⟩
            cases hres
            have := hall v rfl
            rw [hv] at this
            cases this
  · intro v e h hv
    simp only [hookHandler, Run, handlerCallback, h, RunOutcome.results, hv]

theorem hookHandler_result_witness :
    hookHandler
        (fun _ => RunOutcome.raised
          (ErrorValue.exception (Exported.error (ErrorValue.host "not found")))) 0 =
        some (ErrorValue.host "not found") ∧
      hookHandler
        (fun _ => RunOutcome.completed (some (Exported.error (ErrorValue.host "stop")))) 0 =
        some (ErrorValue.host "stop") :=
  ⟨((hookHandler_result
      (fun _ => RunOutcome.raised
        (ErrorValue.exception (Exported.error (ErrorValue.host "not found")))) 0).1
      (ErrorValue.exception (Exported.error (ErrorValue.host "not found"))) rfl).1,
   (hookHandler_result
      (fun _ => RunOutcome.completed (some (Exported.error (ErrorValue.host "stop")))) 0).2.2
      (Exported.error (ErrorValue.host "stop")) (ErrorValue.host "stop") rfl rfl⟩

/-! ## The JavaScript loaders and the bank -/

theorem Bank.Set_same (bank : Bank) (id : String) (entry : BaseExtension) :
    bank.Set id entry id = some entry := by
  simp [Bank.Set]

theorem Bank.Set_other (bank : Bank) (id x : String) (entry : BaseExtension) (h : x ≠ id) :
    bank.Set id entry x = bank x := by
  simp [Bank.Set, h]

/-- C12: for each of the three JavaScript loaders, when the constructor returns
an error the loader returns that error and the repository, with its bank, is
exactly as before; when the constructor returns no error the loader returns
nil, the bank afterwards maps `ext.ID` to the new extension, and the entry of
every other identity is unchanged. -/
theorem loadJS_bank (h : Host) (c : Constructors) (r : Repository) (loader : Loader)
    (ext : Extension) (language : Language) :
    ((∀ err, (NewGojaPlugin h loader ext language).1.2 = some err →
        (loadPluginExtensionJS h r loader ext language).1 = (some err, r)) ∧
      ((NewGojaPlugin h loader ext language).1.2 = none →
        (loadPluginExtensionJS h r loader ext language).1.1 = none ∧
          (loadPluginExtensionJS h r loader ext language).1.2.extensionBank ext.ID =
            some (BaseExtension.plugin ext) ∧
          ∀ id, id ≠ ext.ID →
            (loadPluginExtensionJS h r loader ext language).1.2.extensionBank id =
              r.extensionBank id)) ∧
    ((∀ provider err,
        c.NewGojaAnimeTorrentProvider ext language = Outcome.returned (provider, some err) →
        loadExternalAnimeTorrentProviderExtensionJS c r ext language =
          Outcome.returned (some err, r)) ∧
      (∀ provider, c.NewGojaAnimeTorrentProvider ext language = Outcome.returned (provider, none) →
        ∃ r1, loadExternalAnimeTorrentProviderExtensionJS c r ext language =
            Outcome.returned (none, r1) ∧
          r1.extensionBank ext.ID = some (BaseExtension.animeTorrentProvider ext provider) ∧
          ∀ id, id ≠ ext.ID → r1.extensionBank id = r.extensionBank id)) ∧
    ((∀ provider err,
        c.NewGojaMangaProvider ext language = Outcome.returned (provider, some err) →
        loadExternalMangaExtensionJS c r ext language = Outcome.returned (some err, r)) ∧
      (∀ provider, c.NewGojaMangaProvider ext language = Outcome.returned (provider, none) →
        ∃ r1, loadExternalMangaExtensionJS c r ext language = Outcome.returned (none, r1) ∧
          r1.extensionBank ext.ID = some (BaseExtension.mangaProvider ext provider) ∧
          ∀ id, id ≠ ext.ID → r1.extensionBank id = r.extensionBank id)) := by
  refine ⟨⟨?_, ?_⟩, ⟨?_, ?_⟩, ⟨?_, ?_⟩⟩
  · intro err herr
    simp only [loadPluginExtensionJS, herr]
  · intro hok
    have hload : (loadPluginExtensionJS h r loader ext language).1 =
        (none,
          { r with extensionBank := r.extensionBank.Set ext.ID (BaseExtension.plugin ext) }) := by
      simp only [loadPluginExtensionJS, hok]
    rw [hload]
    exact ⟨rfl, Bank.Set_same _ _ _, fun id hid => Bank.Set_other _ _ _ _ hid⟩
  · intro provider err hc
    simp only [loadExternalAnimeTorrentProviderExtensionJS, hc]
  · intro provider hc
    simp only [loadExternalAnimeTorrentProviderExtensionJS, hc]
    exact ⟨_, rfl, Bank.Set_same _ _ _, fun id hid => Bank.Set_other _ _ _ _ hid⟩
  · intro provider err hc
    simp only [loadExternalMangaExtensionJS, hc]
  · intro provider hc
    simp only [loadExternalMangaExtensionJS, hc]
    exact ⟨_, rfl, Bank.Set_same _ _ _, fun id hid => Bank.Set_other _ _ _ _ hid⟩

theorem loadJS_bank_witness :
    (loadPluginExtensionJS demoHost emptyRepository freshLoader pluginWithInit
        LanguageJavascript).1.2.extensionBank "plugin-a" =
        some (BaseExtension.plugin pluginWithInit) ∧
      (loadPluginExtensionJS
        { demoHost with pluginPool := (none, some (ErrorValue.host "no pool")) }
        emptyRepository freshLoader pluginWithInit LanguageJavascript).1 =
        (some (ErrorValue.host "no pool"), emptyRepository) ∧
      loadExternalAnimeTorrentProviderExtensionJS demoConstructors emptyRepository mangaExtInGo
        LanguageJavascript =
        Outcome.returned (some (ErrorValue.host "evaluation failed"), emptyRepository) ∧
      (∃ r1, loadExternalAnimeTorrentProviderExtensionJS
          { demoConstructors with
            NewGojaAnimeTorrentProvider := fun _ _ => Outcome.returned (some 3, none) }
          emptyRepository mangaExtInGo LanguageJavascript = Outcome.returned (none, r1) ∧
        r1.extensionBank "my-manga-provider" =
          some (BaseExtension.animeTorrentProvider mangaExtInGo (some 3))) ∧
      loadExternalMangaExtensionJS
        { demoConstructors with
          NewGojaMangaProvider := fun _ _ =>
            Outcome.returned (none, some (ErrorValue.host "conversion failed")) }
        emptyRepository mangaExtInGo LanguageTypescript =
        Outcome.returned (some (ErrorValue.host "conversion failed"), emptyRepository) ∧
      (∃ r1, loadExternalMangaExtensionJS demoConstructors emptyRepository mangaExtInGo
          LanguageJavascript = Outcome.returned (none, r1) ∧
        r1.extensionBank "my-manga-provider" =
          some (BaseExtension.mangaProvider mangaExtInGo (some 7))) :=
  ⟨((loadJS_bank demoHost demoConstructors emptyRepository freshLoader pluginWithInit
      LanguageJavascript).1.2 rfl).2.1,
   (loadJS_bank { demoHost with pluginPool := (none, some (ErrorValue.host "no pool")) }
      demoConstructors emptyRepository freshLoader pluginWithInit LanguageJavascript).1.1
      (ErrorValue.host "no pool") rfl,
   (loadJS_bank demoHost demoConstructors emptyRepository freshLoader mangaExtInGo
      LanguageJavascript).2.1.1 none (ErrorValue.host "evaluation failed") rfl,
   ((loadJS_bank demoHost
      { demoConstructors with
        NewGojaAnimeTorrentProvider := fun _ _ => Outcome.returned (some 3, none) }
      emptyRepository freshLoader mangaExtInGo LanguageJavascript).2.1.2 (some 3) rfl).imp
      fun _ hr => ⟨hr.1, hr.2.1⟩,
   (loadJS_bank demoHost
      { demoConstructors with
        NewGojaMangaProvider := fun _ _ =>
          Outcome.returned (none, some (ErrorValue.host "conversion failed")) }
      emptyRepository freshLoader mangaExtInGo LanguageTypescript).2.2.1 none
      (ErrorValue.host "conversion failed") rfl,
   ((loadJS_bank demoHost demoConstructors emptyRepository freshLoader mangaExtInGo
      LanguageJavascript).2.2.2 (some 7) rfl).imp fun _ hr => ⟨hr.1, hr.2.1⟩⟩

/-! ## The plugin constructor -/

/-- On a loader whose global scope binds no `init` before the load: a
JavaScript source that evaluates without error and declares no `init` has no
initializer invoked; one that binds `init` to a function has that function
invoked exactly once, and when the call raises `e` the constructor returns a
nil plugin and an error wrapping `e`. -/
theorem NewGojaPlugin_without_stale_init (h : Host) (loader : Loader) (ext : Extension)
    (language : Language) (hjs : language ≠ LanguageTypescript) (hpool : h.pluginPool.2 = none)
    (hsrc : ext.Payload ≠ "init();") (hraise : (h.script ext.Payload).raises = none)
    (hfresh : loader.init = none) :
    ((h.script ext.Payload).defines = none →
      NewGojaPlugin h loader ext language =
        ((some { ext := ext, pool := h.pluginPool.1 }, none), loader)) ∧
    (∀ id raises, (h.script ext.Payload).defines = some (JSValue.function id raises) →
      (NewGojaPlugin h loader ext language).2.invoked = loader.invoked ++ [id] ∧
        (raises = none →
          (NewGojaPlugin h loader ext language).1 =
            (some { ext := ext, pool := h.pluginPool.1 }, none)) ∧
        (∀ e, raises = some e →
          (NewGojaPlugin h loader ext language).1 =
            (none, some (ErrorValue.wrapped "failed to run init: " e)))) := by
  constructor
  · intro hdef
    obtain ⟨linit, linvoked⟩ := loader
    simp only at hfresh
    subst hfresh
    simp [NewGojaPlugin, hjs, hpool, Loader.RunString, hsrc, hraise, hdef, Loader.Get]
  · intro id raises hdef
    refine ⟨?_, ?_, ?_⟩
    · simp [NewGojaPlugin, hjs, hpool, Loader.RunString, hsrc, hraise, hdef, Loader.Get]
      cases raises <;> rfl
    · intro hr
      subst hr
      simp [NewGojaPlugin, hjs, hpool, Loader.RunString, hsrc, hraise, hdef, Loader.Get]
    · intro e hr
      subst hr
      simp [NewGojaPlugin, hjs, hpool, Loader.RunString, hsrc, hraise, hdef, Loader.Get]

/-- C13 fails on the code: after `pluginWithInit`, whose source declares `init`,
was loaded into a loader (its initializer 1 invoked once), loading
`pluginWithoutInit` into the same loader, whose source declares no `init`,
succeeds and invokes initializer 1 a second time. -/
theorem NewGojaPlugin_invokes_stale_init :
    (demoHost.script pluginWithoutInit.Payload).defines = none ∧
      (NewGojaPlugin demoHost freshLoader pluginWithInit LanguageJavascript).2.invoked = [1] ∧
      (NewGojaPlugin demoHost
        (NewGojaPlugin demoHost freshLoader pluginWithInit LanguageJavascript).2
        pluginWithoutInit LanguageJavascript).1 =
        (some { ext := pluginWithoutInit, pool := some 0 }, none) ∧
      (NewGojaPlugin demoHost
        (NewGojaPlugin demoHost freshLoader pluginWithInit LanguageJavascript).2
        pluginWithoutInit LanguageJavascript).2.invoked = [1, 1] := by
  refine ⟨?_, ?_, ?_, ?_⟩ <;> rfl

/-! ## The top-level loaders and unsupported languages -/

theorem loadPluginExtension_unsupported (h : Host) (r : Repository) (loader : Loader)
    (ext : Extension) (hjs : ext.Language ≠ LanguageJavascript)
    (hts : ext.Language ≠ LanguageTypescript) :
    loadPluginExtension h r loader ext =
      ((some (ErrorValue.host ("unsupported language: " ++ ext.Language)), r), loader) := by
  simp only [loadPluginExtension, hjs, hts, if_false]

theorem loadExternalAnimeTorrentProviderExtension_unsupported (c : Constructors)
    (r : Repository) (ext : Extension) (hjs : ext.Language ≠ LanguageJavascript)
    (hts : ext.Language ≠ LanguageTypescript) :
    loadExternalAnimeTorrentProviderExtension c r ext =
      (some (ErrorValue.host ("unsupported language: " ++ ext.Language)), r) := by
  simp only [loadExternalAnimeTorrentProviderExtension, hjs, hts, if_false,
    HandlePanicInModuleWithError]

theorem loadExternalMangaExtension_unsupported (c : Constructors) (r : Repository)
    (ext : Extension) (hjs : ext.Language ≠ LanguageJavascript)
    (hts : ext.Language ≠ LanguageTypescript) :
    loadExternalMangaExtension c r ext = (none, r) := by
  simp only [loadExternalMangaExtension, hjs, hts, if_false, HandlePanicInModuleWithError]

/-- C15 fails on the code for the manga loader: for the extension
`mangaExtInGo`, whose language is neither JavaScript nor TypeScript,
`loadExternalMangaExtension` returns a nil error and leaves the bank without an
entry for the extension, while the other two top-level loaders return the
"unsupported language" error for the same extension. -/
theorem loadExternalMangaExtension_accepts_unsupported_language :
    mangaExtInGo.Language ≠ LanguageJavascript ∧ mangaExtInGo.Language ≠ LanguageTypescript ∧
      loadExternalMangaExtension demoConstructors emptyRepository mangaExtInGo =
        (none, emptyRepository) ∧
      (loadExternalMangaExtension demoConstructors emptyRepository
        mangaExtInGo).2.extensionBank mangaExtInGo.ID = none ∧
      loadExternalAnimeTorrentProviderExtension demoConstructors emptyRepository mangaExtInGo =
        (some (ErrorValue.host "unsupported language: go"), emptyRepository) ∧
      (loadPluginExtension demoHost emptyRepository freshLoader mangaExtInGo).1 =
        (some (ErrorValue.host "unsupported language: go"), emptyRepository) := by
  refine ⟨by decide, by decide, rfl, rfl, rfl, rfl⟩

end ExtensionRepo
